import Mathlib

/-!
# Verification of the PhotonPath Monte Carlo simulator (`monte_carlo.py`)

A shallow embedding of the Monte Carlo light-propagation simulator of module
`monte_carlo` (class `MonteCarloSimulator`), together with theorems settling
the specification claims about it.

Modelling conventions:
* Python floats are modelled by `ℝ`; `np.inf` appearing in the layer geometry
  (`thickness`, `z_top`, `z_bottom` and the distance-to-boundary value) is
  modelled by `EReal` so that the comparisons against infinite boundaries
  behave like IEEE comparisons against `inf`.
* `np.random.random()` is modelled by an explicit stream `u : ℕ → ℝ` of draws,
  consumed in program order; the state carries the index of the next draw.
* Python division raises `ZeroDivisionError` on a zero denominator.  The one
  zero-denominator division reachable inside the photon trace is
  `weight * mu_a / mu_t` with `mu_t = 0` (the step-sampling division and the
  boundary-distance divisions are guarded by `mu_t > 0` resp. `uz ≠ 0`), so
  the trace is embedded in `Except PyError` with exactly that guard; all other
  real divisions in the embedding have nonzero denominators on the paths where
  their values are used.
* The trace loop `for _ in range(max_steps)` is embedded as fuelled recursion;
  the exit kind (normal credit, the `weight < 1e-10` break, or running out of
  the iteration cap) is recorded alongside the final state and then discarded
  by `tracePhoton`, exactly as the Python function discards it.
* Wall-clock timing fields, progress printing and the metadata echo of
  `SimulationResult` (wavelength, geometry, layer dicts) are side effects or
  input echoes and are not embedded.
-/

open scoped Classical

noncomputable section

namespace MC

/-- Python exceptions that the embedded code can raise. -/
inductive PyError where
  | valueError : String → PyError
  | zeroDivisionError : PyError
deriving DecidableEq

/-- Constant `MonteCarloSimulator.WEIGHT_THRESHOLD` (line 145). -/
def WEIGHT_THRESHOLD : ℝ := 1e-4

/-- Constant `MonteCarloSimulator.ROULETTE_CHANCE` (line 146). -/
def ROULETTE_CHANCE : ℝ := 0.1

/-- Constant `MonteCarloSimulator.COS_CRITICAL` (line 147). -/
def COS_CRITICAL : ℝ := 0.99999

/-- Field `self.n_ambient`, set to `1.0` in `__init__` and never reassigned. -/
def N_AMBIENT : ℝ := 1.0

/-- Constant `max_steps` of `_trace_photon` (line 358). -/
def MAX_STEPS : ℕ := 100000

/-- Dataclass `Layer` (lines 40-60): tissue layer properties with computed
boundaries.  `thickness`, `z_top`, `z_bottom` live in `EReal` because the last
layer may be semi-infinite (`np.inf`). -/
structure Layer where
  name : String
  thickness : EReal
  n : ℝ
  mu_a : ℝ
  mu_s : ℝ
  g : ℝ
  z_top : EReal
  z_bottom : EReal

/-- Property `Layer.mu_t` (lines 52-55): total attenuation coefficient. -/
def Layer.mu_t (l : Layer) : ℝ := l.mu_a + l.mu_s

/-- The argument tuple of `MonteCarloSimulator.add_layer` (lines 171-209). -/
structure LayerSpec where
  name : String
  thickness : EReal
  n : ℝ
  mu_a : ℝ
  mu_s : ℝ
  g : ℝ

/-- Method `MonteCarloSimulator.add_layer` (lines 171-209): the new layer's top is the
previous layer's bottom (or `0.0` for the first layer) and its bottom is
`z_top + thickness` when the thickness is finite (`np.isfinite`), else
`np.inf`. -/
def addLayer (layers : List Layer) (sp : LayerSpec) : List Layer :=
  let zTop : EReal :=
    match layers.getLast? with
    | none => (0 : EReal)
    | some l => l.z_bottom
  let zBottom : EReal :=
    if sp.thickness ≠ ⊤ ∧ sp.thickness ≠ ⊥ then zTop + sp.thickness else ⊤
  layers ++ [{ name := sp.name, thickness := sp.thickness, n := sp.n,
               mu_a := sp.mu_a, mu_s := sp.mu_s, g := sp.g,
               z_top := zTop, z_bottom := zBottom }]

/-- Building the simulator's layer list by repeated `add_layer` calls starting
from the empty list of `__init__`. -/
def buildStack (specs : List LayerSpec) : List Layer :=
  specs.foldl addLayer []

/-- Method `MonteCarloSimulator._get_layer_at_z` (lines 241-246): first layer whose
half-open interval `[z_top, z_bottom)` contains `z`. -/
def getLayerAtZ : List Layer → ℝ → Option Layer
  | [], _ => none
  | l :: ls, z =>
      if l.z_top ≤ (z : EReal) ∧ (z : EReal) < l.z_bottom then some l
      else getLayerAtZ ls z

/-- Method `MonteCarloSimulator._fresnel_reflectance` (lines 248-281). -/
def fresnelReflectance (n1 n2 cosTheta1 : ℝ) : ℝ :=
  if n1 = n2 then 0
  else
    let sinTheta1 := Real.sqrt (1 - cosTheta1 ^ 2)
    let sinTheta2 := n1 / n2 * sinTheta1
    if sinTheta2 > 1 then 1
    else
      let cosTheta2 := Real.sqrt (1 - sinTheta2 ^ 2)
      let rs := ((n1 * cosTheta1 - n2 * cosTheta2) /
                 (n1 * cosTheta1 + n2 * cosTheta2)) ^ 2
      let rp := ((n1 * cosTheta2 - n2 * cosTheta1) /
                 (n1 * cosTheta2 + n2 * cosTheta1)) ^ 2
      0.5 * (rs + rp)

/-- The Henyey-Greenstein inverse-CDF sample of `cos(theta)` in the general
branch of `_scatter_direction` (lines 303-304). -/
def hgCosTheta (g u : ℝ) : ℝ :=
  let temp := (1 - g ^ 2) / (1 - g + 2 * g * u)
  (1 + g ^ 2 - temp ^ 2) / (2 * g)

/-- Method `MonteCarloSimulator._scatter_direction` (lines 283-327); `u1` is the draw
for the deflection angle, `u2` the draw for the azimuth. -/
def scatterDirection (ux uy uz g u1 u2 : ℝ) : ℝ × ℝ × ℝ :=
  let cosTheta := if |g| < 1e-6 then 2 * u1 - 1 else hgCosTheta g u1
  let sinTheta := Real.sqrt (1 - cosTheta ^ 2)
  let phi := 2 * Real.pi * u2
  let cosPhi := Real.cos phi
  let sinPhi := Real.sin phi
  if |uz| > COS_CRITICAL then
    (sinTheta * cosPhi, sinTheta * sinPhi, Real.sign uz * cosTheta)
  else
    let temp := Real.sqrt (1 - uz ^ 2)
    (sinTheta * (ux * uz * cosPhi - uy * sinPhi) / temp + ux * cosTheta,
     sinTheta * (uy * uz * cosPhi + ux * sinPhi) / temp + uy * cosTheta,
     -sinTheta * cosPhi * temp + uz * cosTheta)

/-- The mutable local variables of one `_trace_photon` call (lines 337-355),
plus the index of the next random draw. -/
structure TraceState where
  x : ℝ
  y : ℝ
  z : ℝ
  ux : ℝ
  uy : ℝ
  uz : ℝ
  weight : ℝ
  reflected : ℝ
  transmitted : ℝ
  absorbed : ℝ
  deposits : List (ℝ × ℝ × ℝ)
  idx : ℕ

/-- How one `_trace_photon` propagation loop ended: by a weight-crediting
`break` (escape, exit, or roulette kill), by the `weight < 1e-10` break at the
top of an iteration, or by falling out of `range(max_steps)` with the packet
still alive. -/
inductive ExitKind where
  | credited : ExitKind
  | tinyWeight : ExitKind
  | fuelOut : ExitKind
deriving DecidableEq

/-- Result of one iteration of the propagation loop: continue with a new
state, or terminate with a final state and the exit kind. -/
inductive StepResult where
  | cont : TraceState → StepResult
  | done : TraceState → ExitKind → StepResult

/-- The Russian-roulette block at the end of each loop iteration
(lines 452-458); consumes one draw only when the weight is below the
threshold. -/
def rouletteCheck (u : ℕ → ℝ) (s : TraceState) : StepResult :=
  if s.weight < WEIGHT_THRESHOLD then
    if u s.idx < ROULETTE_CHANCE then
      .cont { s with weight := s.weight / ROULETTE_CHANCE, idx := s.idx + 1 }
    else
      .done { s with absorbed := s.absorbed + s.weight, idx := s.idx + 1 } .credited
  else .cont s

/-- Distance to the layer boundary along the current direction
(lines 378-384): bottom boundary when moving down (`uz > 0`), top boundary
when moving up (`uz < 0`), sentinel `1e10` for horizontal travel.  `⊤`/`⊥`
mirror the IEEE values of `(±inf - z) / uz`. -/
def distToBoundary (layer : Layer) (z uz : ℝ) : EReal :=
  if uz > 0 then
    if layer.z_bottom = ⊤ then ⊤
    else if layer.z_bottom = ⊥ then ⊥
    else (((layer.z_bottom.toReal - z) / uz : ℝ) : EReal)
  else if uz < 0 then
    if layer.z_top = ⊤ then ⊥
    else if layer.z_top = ⊥ then ⊤
    else (((layer.z_top.toReal - z) / uz : ℝ) : EReal)
  else ((1e10 : ℝ) : EReal)

/-- The interaction-within-layer branch (lines 386-402): move by the sampled
step, deposit `weight * mu_a / mu_t` as absorbed (a Python
`ZeroDivisionError` when `mu_t = 0`), record the deposit, scatter, then run
roulette.  `i` is the index of the next unused draw. -/
def interactionStep (u : ℕ → ℝ) (s : TraceState) (layer : Layer)
    (step : ℝ) (i : ℕ) : Except PyError StepResult :=
  let x := s.x + step * s.ux
  let y := s.y + step * s.uy
  let z := s.z + step * s.uz
  if layer.mu_t = 0 then .error .zeroDivisionError
  else
    let delta := s.weight * layer.mu_a / layer.mu_t
    let sd := scatterDirection s.ux s.uy s.uz layer.g (u i) (u (i + 1))
    .ok (rouletteCheck u
      { s with x := x, y := y, z := z,
               weight := s.weight - delta,
               absorbed := s.absorbed + delta,
               deposits := s.deposits ++ [(z, Real.sqrt (x ^ 2 + y ^ 2), delta)],
               ux := sd.1, uy := sd.2.1, uz := sd.2.2,
               idx := i + 2 })

/-- The hit-boundary branch (lines 404-450): move exactly to the boundary,
resolve the Fresnel reflect/transmit decision for the appropriate neighbour,
then run roulette on every non-`break` path.  `d` is the (finite) boundary
distance, `i` the index of the next unused draw. -/
def boundaryStep (L : List Layer) (u : ℕ → ℝ) (s : TraceState) (layer : Layer)
    (d : ℝ) (i : ℕ) : StepResult :=
  let x := s.x + d * s.ux
  let y := s.y + d * s.uy
  let z := s.z + d * s.uz
  let s1 : TraceState := { s with x := x, y := y, z := z, idx := i }
  if s.uz > 0 then
    let nextZ := z + 1e-6
    match getLayerAtZ L nextZ with
    | none =>
        let rf := fresnelReflectance layer.n N_AMBIENT |s.uz|
        if u i < rf then
          rouletteCheck u { s1 with uz := -s.uz, idx := i + 1 }
        else
          .done { s1 with transmitted := s.transmitted + s.weight, idx := i + 1 } .credited
    | some nextLayer =>
        let rf := fresnelReflectance layer.n nextLayer.n |s.uz|
        if u i < rf then
          rouletteCheck u { s1 with uz := -s.uz, idx := i + 1 }
        else
          rouletteCheck u { s1 with z := nextZ, idx := i + 1 }
  else
    let nextZ := z - 1e-6
    if nextZ < 0 then
      let rf := fresnelReflectance layer.n N_AMBIENT |s.uz|
      if u i < rf then
        rouletteCheck u { s1 with uz := -s.uz, idx := i + 1 }
      else
        .done { s1 with reflected := s.reflected + s.weight, idx := i + 1 } .credited
    else
      match getLayerAtZ L nextZ with
      | some nextLayer =>
          let rf := fresnelReflectance layer.n nextLayer.n |s.uz|
          if u i < rf then
            rouletteCheck u { s1 with uz := -s.uz, idx := i + 1 }
          else
            rouletteCheck u { s1 with z := nextZ, idx := i + 1 }
      | none => rouletteCheck u s1

/-- The common tail of one loop iteration once the layer and the step length
are known: compare the step against the boundary distance (lines 386, 404) and
dispatch to the interaction or boundary branch. -/
def stepCore (L : List Layer) (u : ℕ → ℝ) (s : TraceState) (layer : Layer)
    (step : ℝ) (i : ℕ) : Except PyError StepResult :=
  let dist := distToBoundary layer s.z s.uz
  if (step : EReal) < dist then interactionStep u s layer step i
  else .ok (boundaryStep L u s layer dist.toReal i)

/-- One iteration of the propagation loop of `_trace_photon` (lines 359-458):
the `weight < 1e-10` break, the escaped-packet credit, step sampling (one draw
consumed only when `mu_t > 0`; otherwise the `1e10` sentinel), and the two
branches. -/
def loopStep (L : List Layer) (u : ℕ → ℝ) (s : TraceState) :
    Except PyError StepResult :=
  if s.weight < 1e-10 then .ok (.done s .tinyWeight)
  else
    match getLayerAtZ L s.z with
    | none =>
        if s.uz < 0 then
          .ok (.done { s with reflected := s.reflected + s.weight } .credited)
        else
          .ok (.done { s with transmitted := s.transmitted + s.weight } .credited)
    | some layer =>
        if layer.mu_t > 0 then
          stepCore L u s layer (-Real.log (u s.idx) / layer.mu_t) (s.idx + 1)
        else
          stepCore L u s layer 1e10 s.idx

/-- The propagation loop `for _ in range(max_steps)` as fuelled recursion;
running out of fuel returns the current state with the `fuelOut` exit kind,
matching the silent fall-through of the Python loop. -/
def loop (L : List Layer) (u : ℕ → ℝ) : ℕ → TraceState → Except PyError (TraceState × ExitKind)
  | 0, s => .ok (s, .fuelOut)
  | fuel + 1, s =>
      match loopStep L u s with
      | .error e => .error e
      | .ok (.done s1 ek) => .ok (s1, ek)
      | .ok (.cont s1) => loop L u fuel s1

/-- Method `MonteCarloSimulator._trace_photon` (lines 329-460) with an explicit start
index into the draw stream: launch at the origin pointing down, credit the
specular reflection, then run the propagation loop.  When no layer contains
`z = 0` the Python function returns `(weight, 0.0, 0.0, [])`, embedded here as
a state whose `reflected` slot carries that first component. -/
def tracePhotonAux (L : List Layer) (u : ℕ → ℝ) (i0 : ℕ) :
    Except PyError (TraceState × ExitKind) :=
  match getLayerAtZ L 0 with
  | none =>
      .ok ({ x := 0, y := 0, z := 0, ux := 0, uy := 0, uz := 1, weight := 1,
             reflected := 1, transmitted := 0, absorbed := 0,
             deposits := [], idx := i0 }, .credited)
  | some layer =>
      let rs := fresnelReflectance N_AMBIENT layer.n 1
      loop L u MAX_STEPS
        { x := 0, y := 0, z := 0, ux := 0, uy := 0, uz := 1,
          weight := 1 * (1 - rs), reflected := rs * 1, transmitted := 0,
          absorbed := 0, deposits := [], idx := i0 }

/-- The quadruple `(reflected, transmitted, absorbed, deposits)` that
`_trace_photon` returns; the exit kind is discarded exactly as in the source. -/
def tracePhoton (L : List Layer) (u : ℕ → ℝ) :
    Except PyError (ℝ × ℝ × ℝ × List (ℝ × ℝ × ℝ)) :=
  (tracePhotonAux L u 0).map fun p =>
    (p.1.reflected, p.1.transmitted, p.1.absorbed, p.1.deposits)

/-! ## The `run` aggregation (lines 462-607) -/

/-- Field `self.n_z` (line 155). -/
def N_Z : ℕ := 200

/-- Field `self.n_r` (line 156). -/
def N_R : ℕ := 100

/-- Field `self.z_max` (line 157). -/
def Z_MAX : ℝ := 10

/-- Field `self.r_max` (line 158). -/
def R_MAX : ℝ := 10

/-- Entry `i` of `np.linspace(0, z_max, n_z + 1)` (line 488). -/
def zBinEdge (i : ℕ) : ℝ := Z_MAX * i / N_Z

/-- Entry `i` of `np.linspace(0, r_max, n_r + 1)` (line 489). -/
def rBinEdge (i : ℕ) : ℝ := R_MAX * i / N_R

/-- Bin width `dz = z_bins[1] - z_bins[0]` (line 490). -/
def DZ : ℝ := zBinEdge 1 - zBinEdge 0

/-- Bin width `dr = r_bins[1] - r_bins[0]` (line 491). -/
def DR : ℝ := rBinEdge 1 - rBinEdge 0

/-- Centre `z_centers[i] = (z_bins[i] + z_bins[i+1]) / 2` (line 548). -/
def zCenter (i : ℕ) : ℝ := (zBinEdge i + zBinEdge (i + 1)) / 2

/-- Python `int()` applied to a float: truncation toward zero. -/
def pyTrunc (x : ℝ) : ℤ := if 0 ≤ x then ⌊x⌋ else -⌊-x⌋

/-- Pointwise bump of a 1-D scoring array. -/
def bumpAt (f : ℕ → ℝ) (i : ℕ) (w : ℝ) : ℕ → ℝ :=
  fun j => if j = i then f j + w else f j

/-- Pointwise bump of the 2-D scoring array. -/
def bumpAt2 (f : ℕ → ℕ → ℝ) (i j : ℕ) (w : ℝ) : ℕ → ℕ → ℝ :=
  fun a b => if a = i ∧ b = j then f a b + w else f a b

/-- Scoring of one deposit `(z, r, w)` into the fluence arrays
(lines 517-528): bin indices by `int` truncation, out-of-range deposits are
dropped. -/
def scoreDeposit (acc : (ℕ → ℝ) × (ℕ → ℕ → ℝ)) (dep : ℝ × ℝ × ℝ) :
    (ℕ → ℝ) × (ℕ → ℕ → ℝ) :=
  let iz := pyTrunc (dep.1 / DZ)
  let ir := pyTrunc (dep.2.1 / DR)
  if 0 ≤ iz ∧ iz < (N_Z : ℤ) then
    let fz1 := bumpAt acc.1 iz.toNat dep.2.2
    if 0 ≤ ir ∧ ir < (N_R : ℤ) then (fz1, bumpAt2 acc.2 ir.toNat iz.toNat dep.2.2)
    else (fz1, acc.2)
  else acc

/-- Scoring of all deposits of one packet, in order. -/
def scoreAll (acc : (ℕ → ℝ) × (ℕ → ℕ → ℝ)) (deps : List (ℝ × ℝ × ℝ)) :
    (ℕ → ℝ) × (ℕ → ℕ → ℝ) :=
  deps.foldl scoreDeposit acc

/-- Accumulator of the photon loop of `run` (lines 496-528). -/
structure RunAccum where
  totR : ℝ
  totT : ℝ
  totA : ℝ
  fz : ℕ → ℝ
  frz : ℕ → ℕ → ℝ
  idx : ℕ

/-- The photon loop of `run` (lines 503-528): trace one packet, accumulate its
terminal credits, score its deposits; a Python exception raised inside a trace
propagates out of `run`. -/
def runLoop (L : List Layer) (u : ℕ → ℝ) : ℕ → RunAccum → Except PyError RunAccum
  | 0, acc => .ok acc
  | k + 1, acc =>
      match tracePhotonAux L u acc.idx with
      | .error e => .error e
      | .ok (s, _) =>
          let sc := scoreAll (acc.fz, acc.frz) s.deposits
          runLoop L u k
            { totR := acc.totR + s.reflected, totT := acc.totT + s.transmitted,
              totA := acc.totA + s.absorbed, fz := sc.1, frz := sc.2,
              idx := s.idx }

/-- Ring area `pi * (r_bins[ir+1]^2 - r_bins[ir]^2)` (line 542). -/
def ringArea (ir : ℕ) : ℝ :=
  Real.pi * ((rBinEdge (ir + 1)) ^ 2 - (rBinEdge ir) ^ 2)

/-- Depth-fluence normalisation `fluence_z[iz] /= (n_photons * dz)` for each
of the `n_z` bins (lines 536-538). -/
def normalizeFz (fz : ℕ → ℝ) (nR : ℝ) : ℕ → ℝ :=
  fun i => if i < N_Z then fz i / (nR * DZ) else fz i

/-- Radial fluence normalisation (lines 540-545), with the `ring_area > 0`
guard of the source. -/
def normalizeFrz (frz : ℕ → ℕ → ℝ) (nR : ℝ) : ℕ → ℕ → ℝ :=
  fun ir iz =>
    if ir < N_R ∧ iz < N_Z ∧ ringArea ir > 0 then
      frz ir iz / (nR * ringArea ir * DZ)
    else frz ir iz

/-- Scan embedding `np.where(f < thr)[0]` restricted to its first element: scan `k` indices
starting at `i` for the first one whose value is below the threshold. -/
def scanBelow (f : ℕ → ℝ) (thr : ℝ) : ℕ → ℕ → Option ℕ
  | _, 0 => none
  | i, k + 1 => if f i < thr then some i else scanBelow f thr (i + 1) k

/-- The penetration-depth block of `run` (lines 550-562): thresholds
`f0 / e` and `f0 / e²`, first bin centre below each threshold, `z_max` when
none, and `(0, 0)` when the surface bin is not positive. -/
def computePen (f : ℕ → ℝ) : ℝ × ℝ :=
  if f 0 > 0 then
    ((match scanBelow f (f 0 / Real.exp 1) 0 N_Z with
      | some i => zCenter i
      | none => Z_MAX),
     (match scanBelow f (f 0 / Real.exp 1 ^ 2) 0 N_Z with
      | some i => zCenter i
      | none => Z_MAX))
  else (0, 0)

/-- The effective-attenuation fit (lines 564-573): a degree-1 least-squares
fit (`np.polyfit(z_valid, log f_valid, 1)`, written in closed form) over the
bins with positive fluence, taken only when more than two such bins exist. -/
def muEffOf (f : ℕ → ℝ) : ℝ :=
  let valid := (List.range N_Z).filter (fun i => decide (0 < f i))
  let k : ℝ := valid.length
  let sx := (valid.map (fun i => zCenter i)).sum
  let sy := (valid.map (fun i => Real.log (f i))).sum
  let sxy := (valid.map (fun i => zCenter i * Real.log (f i))).sum
  let sxx := (valid.map (fun i => zCenter i ^ 2)).sum
  if 2 < valid.length then -((k * sxy - sx * sy) / (k * sxx - sx ^ 2)) else 0

/-- The numeric outputs of `SimulationResult` (lines 63-123) produced by
`run`; input echoes and wall-clock timing are not embedded. -/
structure RunResult where
  reflectance : ℝ
  transmittance : ℝ
  absorptionFraction : ℝ
  fluenceZ : ℕ → ℝ
  fluenceRZ : ℕ → ℕ → ℝ
  penetrationDepth1e : ℝ
  penetrationDepth1e2 : ℝ
  effectiveAttenuation : ℝ

/-- Method `MonteCarloSimulator.run` (lines 462-607): reject an empty layer list,
trace `n_photons` packets (`range` iterates `max 0 n` times), normalise by the
photon count (`total_reflected /= n_photons` raises `ZeroDivisionError` for a
zero count, after the tracing loop), normalise the fluence arrays and derive
the penetration depths and the attenuation fit. -/
def run (L : List Layer) (nPhotons : ℤ) (u : ℕ → ℝ) : Except PyError RunResult :=
  if L.length = 0 then .error (.valueError "No layers defined. Use add_layer() first.")
  else
    match runLoop L u nPhotons.toNat
        { totR := 0, totT := 0, totA := 0,
          fz := fun _ => 0, frz := fun _ _ => 0, idx := 0 } with
    | .error e => .error e
    | .ok acc =>
        if nPhotons = 0 then .error .zeroDivisionError
        else
          let nR : ℝ := (nPhotons : ℝ)
          let fzn := normalizeFz acc.fz nR
          let pens := computePen fzn
          .ok { reflectance := acc.totR / nR,
                transmittance := acc.totT / nR,
                absorptionFraction := acc.totA / nR,
                fluenceZ := fzn,
                fluenceRZ := normalizeFrz acc.frz nR,
                penetrationDepth1e := pens.1,
                penetrationDepth1e2 := pens.2,
                effectiveAttenuation := muEffOf fzn }

/-- Modelled from the spec (for comparison in the penetration-depth claim):
"the smallest depth at which the depth-fluence profile first falls below
(surface_fluence / divisor); if it never does within the scored range, report
the maximum scored depth". -/
def penSpecDepth (divisor : ℝ) (f : ℕ → ℝ) : ℝ :=
  if h : ∃ i, i < N_Z ∧ f i < f 0 / divisor then zCenter (Nat.find h) else Z_MAX

/-! ## Fresnel reflectance: case structure and bounds (C5, C9) -/

/-- A symmetric ratio of nonnegative quantities squared is at most one. -/
theorem symmRatioSq_le_one {a b : ℝ} (ha : 0 ≤ a) (hb : 0 ≤ b)
    (hab : 0 < a + b) : ((a - b) / (a + b)) ^ 2 ≤ 1 := by
  rw [div_pow, div_le_one (by positivity)]
  nlinarith

/-- Shared bounds lemma: the Fresnel reflectance lies in `[0, 1]` for positive
indices and an incidence cosine in `[0, 1]`. -/
theorem fresnel_mem_aux (n1 n2 c : ℝ) (h1 : 0 < n1) (h2 : 0 < n2)
    (hc0 : 0 ≤ c) (hc1 : c ≤ 1) :
    0 ≤ fresnelReflectance n1 n2 c ∧ fresnelReflectance n1 n2 c ≤ 1 := by
  simp only [fresnelReflectance]
  split_ifs with heq htir
  · norm_num
  · norm_num
  · set s2 := n1 / n2 * Real.sqrt (1 - c ^ 2) with hs2
    set c2 := Real.sqrt (1 - s2 ^ 2) with hc2
    have hs2nn : 0 ≤ s2 :=
      mul_nonneg (div_nonneg h1.le h2.le) (Real.sqrt_nonneg _)
    have hs2le : s2 ≤ 1 := not_lt.mp htir
    have hc2nn : 0 ≤ c2 := Real.sqrt_nonneg _
    have hcase : 0 < c ∨ 0 < c2 := by
      rcases eq_or_lt_of_le hc0 with h0 | h0
      · right
        apply Real.sqrt_pos.mpr
        have hs1 : Real.sqrt (1 - c ^ 2) = 1 := by
          rw [← h0]; norm_num
        have hs2v : s2 = n1 / n2 := by rw [hs2, hs1, mul_one]
        have h2ne : n2 ≠ 0 := ne_of_gt h2
        have hne1 : s2 ≠ 1 := by
          rw [hs2v]
          intro hcontra
          apply heq
          field_simp at hcontra
          exact hcontra
        have hlt : s2 < 1 := lt_of_le_of_ne hs2le hne1
        nlinarith
      · left; exact h0
    have hden1 : 0 < n1 * c + n2 * c2 := by
      rcases hcase with h | h
      · have := mul_pos h1 h
        have := mul_nonneg h2.le hc2nn
        linarith
      · have := mul_pos h2 h
        have := mul_nonneg h1.le hc0
        linarith
    have hden2 : 0 < n1 * c2 + n2 * c := by
      rcases hcase with h | h
      · have := mul_pos h2 h
        have := mul_nonneg h1.le hc2nn
        linarith
      · have := mul_pos h1 h
        have := mul_nonneg h2.le hc0
        linarith
    have hrs : ((n1 * c - n2 * c2) / (n1 * c + n2 * c2)) ^ 2 ≤ 1 :=
      symmRatioSq_le_one (mul_nonneg h1.le hc0) (mul_nonneg h2.le hc2nn) hden1
    have hrp : ((n1 * c2 - n2 * c) / (n1 * c2 + n2 * c)) ^ 2 ≤ 1 :=
      symmRatioSq_le_one (mul_nonneg h1.le hc2nn) (mul_nonneg h2.le hc0) hden2
    constructor
    · positivity
    · nlinarith

/-- Modelled from the spec: "return the mean of the s- and p-polarized Fresnel
reflectance formulas (unpolarized approximation)", with `cos(theta2)` obtained
from Snell's law.  Comparison point for the claim about the case structure of
`_fresnel_reflectance`. -/
def fresnelSpecMean (n1 n2 c : ℝ) : ℝ :=
  let sinT2 := n1 / n2 * Real.sqrt (1 - c ^ 2)
  let cosT2 := Real.sqrt (1 - sinT2 ^ 2)
  (((n1 * c - n2 * cosT2) / (n1 * c + n2 * cosT2)) ^ 2 +
   ((n1 * cosT2 - n2 * c) / (n1 * cosT2 + n2 * c)) ^ 2) / 2

/-- C5: for all indices `n1`, `n2` and incidence cosine `c ∈ [0,1]`, the
Fresnel reflectance returns exactly 0 when `n1 = n2`; returns exactly 1 when
Snell's law gives `sin(theta2) = (n1/n2) * sin(theta1) > 1` (total internal
reflection); and otherwise returns the mean of the s- and p-polarized Fresnel
reflectance formulas. -/
theorem fresnelReflectance_cases (n1 n2 c : ℝ) (hc0 : 0 ≤ c) (hc1 : c ≤ 1) :
    (n1 = n2 → fresnelReflectance n1 n2 c = 0) ∧
    (n1 ≠ n2 → 1 < n1 / n2 * Real.sqrt (1 - c ^ 2) →
      fresnelReflectance n1 n2 c = 1) ∧
    (n1 ≠ n2 → ¬ 1 < n1 / n2 * Real.sqrt (1 - c ^ 2) →
      fresnelReflectance n1 n2 c = fresnelSpecMean n1 n2 c) := by
  refine ⟨fun h => ?_, fun h htir => ?_, fun h htir => ?_⟩
  · simp only [fresnelReflectance, if_pos h]
  · simp only [fresnelReflectance, if_neg h]
    rw [if_pos (show n1 / n2 * Real.sqrt (1 - c ^ 2) > 1 from htir)]
  · simp only [fresnelReflectance, fresnelSpecMean, if_neg h]
    rw [if_neg (show ¬ n1 / n2 * Real.sqrt (1 - c ^ 2) > 1 from htir)]
    ring

/-- Witness for C5 at concrete inputs: the matched-index case and the
general case both evaluate as described. -/
theorem fresnelReflectance_cases_witness :
    fresnelReflectance 1 1 (1 / 2) = 0 ∧
    fresnelReflectance 1 2 1 = fresnelSpecMean 1 2 1 := by
  constructor
  · exact (fresnelReflectance_cases 1 1 (1 / 2) (by norm_num) (by norm_num)).1 rfl
  · refine (fresnelReflectance_cases 1 2 1 (by norm_num) (by norm_num)).2.2
      (by norm_num) ?_
    rw [show (1 : ℝ) - 1 ^ 2 = 0 by norm_num, Real.sqrt_zero]
    norm_num

/-- C9: for positive refractive indices and every incidence cosine in `[0,1]`,
the Fresnel reflectance function returns a value in `[0,1]`, so comparing a
uniform draw against it is a well-formed reflection probability. -/
theorem fresnelReflectance_bounded (n1 n2 c : ℝ) (h1 : 0 < n1) (h2 : 0 < n2)
    (hc0 : 0 ≤ c) (hc1 : c ≤ 1) :
    0 ≤ fresnelReflectance n1 n2 c ∧ fresnelReflectance n1 n2 c ≤ 1 :=
  fresnel_mem_aux n1 n2 c h1 h2 hc0 hc1

/-- Witness for C9 at `n1 = 1`, `n2 = 2`, `c = 1`. -/
theorem fresnelReflectance_bounded_witness :
    (0 : ℝ) < 1 ∧ (0 : ℝ) < 2 ∧
    0 ≤ fresnelReflectance 1 2 1 ∧ fresnelReflectance 1 2 1 ≤ 1 :=
  ⟨by norm_num, by norm_num,
   (fresnelReflectance_bounded 1 2 1 (by norm_num) (by norm_num) (by norm_num)
     (by norm_num)).1,
   (fresnelReflectance_bounded 1 2 1 (by norm_num) (by norm_num) (by norm_num)
     (by norm_num)).2⟩

/-! ## Henyey-Greenstein sampler (C10) -/

/-- C10: in the general branch of the Henyey-Greenstein sampler, for every
anisotropy factor `g` with `0 < |g| < 1` and every draw `u ∈ [0,1)`, the
inverse-CDF sample of `cos(theta)` lies in `[-1,1]`, so the subsequent
`sqrt(1 - cos(theta)^2)` is applied to a nonnegative argument. -/
theorem hgCosTheta_mem (g u : ℝ) (hg0 : 0 < |g|) (hg1 : |g| < 1)
    (hu0 : 0 ≤ u) (hu1 : u < 1) :
    -1 ≤ hgCosTheta g u ∧ hgCosTheta g u ≤ 1 ∧
    0 ≤ 1 - hgCosTheta g u ^ 2 := by
  have hgne : g ≠ 0 := by
    intro h
    rw [h, abs_zero] at hg0
    exact lt_irrefl 0 hg0
  simp only [hgCosTheta]
  rcases lt_or_gt_of_ne hgne with hneg | hpos
  · -- g < 0
    have hg1n : -1 < g := by
      have := (abs_lt.mp hg1).1
      linarith
    have h2g : 2 * g < 0 := by linarith
    have hd : 0 < 1 - g + 2 * g * u := by nlinarith
    set T := (1 - g ^ 2) / (1 - g + 2 * g * u) with hT
    have hT2 : 1 + g ≤ T := by
      rw [hT, le_div_iff hd]
      nlinarith [mul_nonpos_of_nonneg_of_nonpos
        (mul_nonneg hu0 (show (0 : ℝ) ≤ 1 + g by linarith))
        (show 2 * g ≤ 0 by linarith)]
    have hT1 : T ≤ 1 - g := by
      rw [hT, div_le_iff hd]
      nlinarith [mul_nonneg (show (0 : ℝ) ≤ 1 - g by linarith)
        (mul_nonneg (show (0 : ℝ) ≤ -(2 * g) by linarith)
          (show (0 : ℝ) ≤ 1 - u by linarith))]
    have hTnn : 0 ≤ T := le_trans (by linarith) hT2
    have hsq1 : T ^ 2 ≤ (1 - g) ^ 2 := pow_le_pow_left hTnn hT1 2
    have hsq2 : (1 + g) ^ 2 ≤ T ^ 2 := pow_le_pow_left (by linarith) hT2 2
    have hlo : -1 ≤ (1 + g ^ 2 - T ^ 2) / (2 * g) := by
      rw [le_div_iff_of_neg h2g]
      nlinarith
    have hhi : (1 + g ^ 2 - T ^ 2) / (2 * g) ≤ 1 := by
      rw [div_le_iff_of_neg h2g]
      nlinarith
    exact ⟨hlo, hhi, by nlinarith⟩
  · -- g > 0
    have hg1p : g < 1 := by
      have := (abs_lt.mp hg1).2
      linarith
    have h2g : 0 < 2 * g := by linarith
    have hd : 0 < 1 - g + 2 * g * u := by nlinarith
    set T := (1 - g ^ 2) / (1 - g + 2 * g * u) with hT
    have hT1 : 1 - g ≤ T := by
      rw [hT, le_div_iff hd]
      nlinarith [mul_nonneg (show (0 : ℝ) ≤ 1 - g by linarith)
        (mul_nonneg (show (0 : ℝ) ≤ 2 * g by linarith)
          (show (0 : ℝ) ≤ 1 - u by linarith))]
    have hT2 : T ≤ 1 + g := by
      rw [hT, div_le_iff hd]
      nlinarith [mul_nonneg (show (0 : ℝ) ≤ 1 + g by linarith)
        (mul_nonneg (show (0 : ℝ) ≤ 2 * g by linarith) hu0)]
    have hTnn : 0 ≤ T := le_trans (by linarith) hT1
    have hsq1 : (1 - g) ^ 2 ≤ T ^ 2 := pow_le_pow_left (by linarith) hT1 2
    have hsq2 : T ^ 2 ≤ (1 + g) ^ 2 := pow_le_pow_left hTnn hT2 2
    have hlo : -1 ≤ (1 + g ^ 2 - T ^ 2) / (2 * g) := by
      rw [le_div_iff h2g]
      nlinarith
    have hhi : (1 + g ^ 2 - T ^ 2) / (2 * g) ≤ 1 := by
      rw [div_le_one h2g]
      nlinarith
    exact ⟨hlo, hhi, by nlinarith⟩

/-! ## Layer geometry and lookup (C6) -/

/-- The boundary value continuing a stack: the bottom of the last layer, or
the start value for an empty stack; `addLayer` places a new layer's top at
exactly this value. -/
def endBottom (zt : EReal) (ls : List Layer) : EReal :=
  match ls.getLast? with
  | none => zt
  | some l => l.z_bottom

/-- A list of layers forms a stack starting at `zt`: each layer's top equals
the running boundary and each layer's interval is ordered. -/
def Stacked : EReal → List Layer → Prop
  | _, [] => True
  | zt, l :: ls => l.z_top = zt ∧ l.z_top ≤ l.z_bottom ∧ Stacked l.z_bottom ls

theorem endBottom_cons (zt : EReal) (l : Layer) (ls : List Layer) :
    endBottom zt (l :: ls) = endBottom l.z_bottom ls := by
  cases ls with
  | nil => simp [endBottom]
  | cons x xs =>
      unfold endBottom
      rw [List.getLast?_cons_cons]
      cases hlast : (x :: xs).getLast? with
      | none => exact absurd (List.getLast?_eq_none_iff.mp hlast) (by simp)
      | some y => rfl

theorem stacked_mem_le {zt : EReal} {ls : List Layer} (h : Stacked zt ls) :
    ∀ l ∈ ls, zt ≤ l.z_top := by
  induction ls generalizing zt with
  | nil => intro l hl; cases hl
  | cons x xs ih =>
      intro l hl
      obtain ⟨hx, hxle, hxs⟩ := h
      rcases List.mem_cons.mp hl with rfl | hmem
      · exact le_of_eq hx.symm
      · calc zt = x.z_top := hx.symm
          _ ≤ x.z_bottom := hxle
          _ ≤ _ := ih hxs _ hmem

theorem stacked_append : ∀ (zt : EReal) (ls : List Layer), Stacked zt ls →
    ∀ l : Layer, l.z_top = endBottom zt ls → l.z_top ≤ l.z_bottom →
    Stacked zt (ls ++ [l])
  | zt, [], _, l, htop, hord =>
      ⟨by simpa [endBottom] using htop, hord, trivial⟩
  | _, x :: xs, h, l, htop, hord => by
      obtain ⟨hx, hxle, hxs⟩ := h
      exact ⟨hx, hxle, stacked_append x.z_bottom xs hxs l
        (by rwa [endBottom_cons] at htop) hord⟩

theorem stacked_addLayer {acc : List Layer} (hacc : Stacked 0 acc)
    (sp : LayerSpec) (hsp : (0 : EReal) ≤ sp.thickness) :
    Stacked 0 (addLayer acc sp) := by
  unfold addLayer
  apply stacked_append 0 acc hacc
  · rfl
  · dsimp only
    split_ifs with hfin
    · exact le_add_of_nonneg_right hsp
    · exact le_top

theorem stacked_foldl : ∀ (specs : List LayerSpec) (acc : List Layer),
    Stacked 0 acc → (∀ sp ∈ specs, (0 : EReal) ≤ sp.thickness) →
    Stacked 0 (List.foldl addLayer acc specs)
  | [], _, hacc, _ => hacc
  | sp :: rest, acc, hacc, hv => by
      rw [List.foldl_cons]
      exact stacked_foldl rest (addLayer acc sp)
        (stacked_addLayer hacc sp (hv sp (List.mem_cons_self _ _)))
        (fun s hs => hv s (List.mem_cons_of_mem _ hs))

theorem stacked_find : ∀ (zt : EReal) (ls : List Layer), Stacked zt ls →
    ∀ l ∈ ls, ∀ z : ℝ, l.z_top ≤ (z : EReal) → (z : EReal) < l.z_bottom →
    getLayerAtZ ls z = some l
  | _, [], _, l, hl, _, _, _ => absurd hl (List.not_mem_nil l)
  | _, x :: xs, h, l, hl, z, hz1, hz2 => by
      obtain ⟨hx, hxle, hxs⟩ := h
      unfold getLayerAtZ
      split_ifs with hguard
      · rcases List.mem_cons.mp hl with rfl | hmem
        · rfl
        · exfalso
          have hle : x.z_bottom ≤ l.z_top := stacked_mem_le hxs l hmem
          exact lt_irrefl _ (lt_of_lt_of_le hguard.2 (le_trans hle hz1))
      · rcases List.mem_cons.mp hl with rfl | hmem
        · exact absurd ⟨hz1, hz2⟩ hguard
        · exact stacked_find x.z_bottom xs hxs l hmem z hz1 hz2

/-- C6: for every layer stack built by cumulative summation of (nonnegative)
thicknesses starting at `z = 0` and every depth `z`, the layer lookup returns
the layer whose half-open interval `[z_top, z_bottom)` contains `z`; with the
last layer infinite (`z_bottom = ⊤`) it owns every `z` at or below its top
boundary, and lookup is correct for `z` exactly at a boundary. -/
theorem getLayerAtZ_correct (specs : List LayerSpec)
    (hval : ∀ sp ∈ specs, (0 : EReal) ≤ sp.thickness)
    (l : Layer) (hl : l ∈ buildStack specs) (z : ℝ)
    (h1 : l.z_top ≤ (z : EReal)) (h2 : (z : EReal) < l.z_bottom) :
    getLayerAtZ (buildStack specs) z = some l :=
  stacked_find 0 (buildStack specs)
    (stacked_foldl specs [] trivial hval) l hl z h1 h2

/-- A two-layer stack used to witness the lookup theorem: a 2 mm layer over a
semi-infinite one. -/
def demoSpecs : List LayerSpec :=
  [{ name := "a", thickness := ((2 : ℝ) : EReal), n := 1.4, mu_a := 0.1,
     mu_s := 1, g := 0.9 },
   { name := "b", thickness := ⊤, n := 1.5, mu_a := 0.2, mu_s := 2, g := 0.8 }]

/-- The second layer that `buildStack demoSpecs` produces. -/
def demoLayer1 : Layer :=
  { name := "b", thickness := ⊤, n := 1.5, mu_a := 0.2, mu_s := 2, g := 0.8,
    z_top := ((2 : ℝ) : EReal), z_bottom := ⊤ }

theorem demoStack_eval :
    buildStack demoSpecs =
      [{ name := "a", thickness := ((2 : ℝ) : EReal), n := 1.4, mu_a := 0.1,
         mu_s := 1, g := 0.9, z_top := (0 : EReal),
         z_bottom := ((2 : ℝ) : EReal) }, demoLayer1] := by
  simp only [buildStack, demoSpecs, List.foldl_cons, List.foldl_nil, addLayer,
    demoLayer1]
  norm_num [List.getLast?]

/-- Witness for C6: at the internal boundary depth `z = 2` the lookup returns
the semi-infinite second layer, which owns `[2, ∞)`. -/
theorem getLayerAtZ_correct_witness :
    getLayerAtZ (buildStack demoSpecs) 2 = some demoLayer1 := by
  apply getLayerAtZ_correct demoSpecs
  · intro sp hsp
    simp only [demoSpecs, List.mem_cons, List.mem_singleton] at hsp
    rcases hsp with rfl | rfl | h
    · exact (EReal.coe_nonneg).mpr (by norm_num)
    · exact le_top
    · cases h
  · rw [demoStack_eval]
    simp
  · exact le_of_eq rfl
  · exact EReal.coe_lt_top 2

/-! ## Bookkeeping of weight and terminal credits (C1, C7) -/

/-- The running total of the three terminal credit accumulators of a trace. -/
def credits (s : TraceState) : ℝ := s.reflected + s.transmitted + s.absorbed

theorem rouletteCheck_cont {u : ℕ → ℝ} {s s' : TraceState}
    (h : rouletteCheck u s = .cont s') :
    (s' = s ∧ ¬ s.weight < WEIGHT_THRESHOLD) ∨
    (s.weight < WEIGHT_THRESHOLD ∧ u s.idx < ROULETTE_CHANCE ∧
      s' = { s with weight := s.weight / ROULETTE_CHANCE, idx := s.idx + 1 }) := by
  unfold rouletteCheck at h
  split_ifs at h with h1 h2
  · right
    cases h
    exact ⟨h1, h2, rfl⟩
  · left
    cases h
    exact ⟨rfl, h1⟩

theorem rouletteCheck_done {u : ℕ → ℝ} {s s' : TraceState} {ek : ExitKind}
    (h : rouletteCheck u s = .done s' ek) :
    ek = .credited ∧
    s' = { s with absorbed := s.absorbed + s.weight, idx := s.idx + 1 } ∧
    s.weight < WEIGHT_THRESHOLD ∧ ¬ u s.idx < ROULETTE_CHANCE := by
  unfold rouletteCheck at h
  split_ifs at h with h1 h2
  · cases h
    exact ⟨rfl, rfl, h1, h2⟩

theorem getLayerAtZ_mem : ∀ (L : List Layer) (z : ℝ) (l : Layer),
    getLayerAtZ L z = some l → l ∈ L
  | [], _, _, h => Option.noConfusion h
  | x :: xs, z, l, h => by
      unfold getLayerAtZ at h
      split_ifs at h with hg
      · cases h
        exact List.mem_cons_self _ _
      · exact List.mem_cons_of_mem _ (getLayerAtZ_mem xs z l h)

/-- How a single loop iteration accounts for the quantity
`credits + weight`: it is preserved by every continuation and by every
crediting termination (assuming no roulette survival), and the `tinyWeight`
break leaves the state untouched with a sub-`1e-10` weight. -/
def StepConserves (c : ℝ) : StepResult → Prop
  | .cont s' => credits s' + s'.weight = c
  | .done s' .credited => credits s' = c
  | .done s' .tinyWeight => credits s' + s'.weight = c ∧ s'.weight < 1e-10
  | .done _ .fuelOut => False

theorem rouletteCheck_conserves {u : ℕ → ℝ} {s1 : TraceState} {c : ℝ}
    (Hu : ∀ i, ROULETTE_CHANCE ≤ u i)
    (hc : credits s1 + s1.weight = c) :
    StepConserves c (rouletteCheck u s1) := by
  unfold rouletteCheck
  split_ifs with h1 h2
  · exact absurd h2 (not_lt.mpr (Hu s1.idx))
  · show credits _ = c
    simp only [credits] at hc ⊢
    linarith
  · exact hc

theorem interactionStep_cases (u : ℕ → ℝ) (s : TraceState) (layer : Layer)
    (step : ℝ) (i : ℕ) :
    interactionStep u s layer step i = .error .zeroDivisionError ∨
    (layer.mu_t ≠ 0 ∧ ∃ s1 : TraceState,
      interactionStep u s layer step i = .ok (rouletteCheck u s1) ∧
      s1.weight = s.weight - s.weight * layer.mu_a / layer.mu_t ∧
      s1.absorbed = s.absorbed + s.weight * layer.mu_a / layer.mu_t ∧
      s1.reflected = s.reflected ∧ s1.transmitted = s.transmitted) := by
  unfold interactionStep
  dsimp only
  split_ifs with h
  · left; rfl
  · right
    exact ⟨h, _, rfl, rfl, rfl, rfl, rfl⟩

theorem boundaryStep_cases (L : List Layer) (u : ℕ → ℝ) (s : TraceState)
    (layer : Layer) (d : ℝ) (i : ℕ) :
    (∃ s1 : TraceState, boundaryStep L u s layer d i = rouletteCheck u s1 ∧
      s1.weight = s.weight ∧ s1.reflected = s.reflected ∧
      s1.transmitted = s.transmitted ∧ s1.absorbed = s.absorbed) ∨
    (∃ s2 : TraceState, boundaryStep L u s layer d i = .done s2 .credited ∧
      s2.weight = s.weight ∧ credits s2 = credits s + s.weight) := by
  unfold boundaryStep
  dsimp only
  by_cases h1 : s.uz > 0
  · rw [if_pos h1]
    cases hm : getLayerAtZ L (s.z + d * s.uz + 1e-6) with
    | none =>
        dsimp only
        split_ifs with hf
        · exact Or.inl ⟨_, rfl, rfl, rfl, rfl, rfl⟩
        · refine Or.inr ⟨_, rfl, rfl, ?_⟩
          simp only [credits]
          ring
    | some nl =>
        dsimp only
        split_ifs with hf
        · exact Or.inl ⟨_, rfl, rfl, rfl, rfl, rfl⟩
        · exact Or.inl ⟨_, rfl, rfl, rfl, rfl, rfl⟩
  · rw [if_neg h1]
    split_ifs with h2 hf
    · exact Or.inl ⟨_, rfl, rfl, rfl, rfl, rfl⟩
    · refine Or.inr ⟨_, rfl, rfl, ?_⟩
      simp only [credits]
      ring
    · cases hm : getLayerAtZ L (s.z + d * s.uz - 1e-6) with
      | some nl =>
          dsimp only
          split_ifs with hf
          · exact Or.inl ⟨_, rfl, rfl, rfl, rfl, rfl⟩
          · exact Or.inl ⟨_, rfl, rfl, rfl, rfl, rfl⟩
      | none =>
          dsimp only
          exact Or.inl ⟨_, rfl, rfl, rfl, rfl, rfl⟩

theorem loopStep_conserves {L : List Layer} {u : ℕ → ℝ} {s : TraceState}
    (Hu : ∀ i, ROULETTE_CHANCE ≤ u i) :
    ∀ X, loopStep L u s = .ok X → StepConserves (credits s + s.weight) X := by
  intro X h
  unfold loopStep at h
  by_cases htiny : s.weight < 1e-10
  · rw [if_pos htiny] at h
    cases h
    exact ⟨rfl, htiny⟩
  · rw [if_neg htiny] at h
    cases hL : getLayerAtZ L s.z with
    | none =>
        rw [hL] at h
        dsimp only at h
        by_cases hup : s.uz < 0
        · rw [if_pos hup] at h
          cases h
          show credits _ = _
          simp only [credits]
          ring
        · rw [if_neg hup] at h
          cases h
          show credits _ = _
          simp only [credits]
          ring
    | some layer =>
        rw [hL] at h
        dsimp only at h
        have hcore : ∀ (step : ℝ) (i : ℕ),
            stepCore L u s layer step i = .ok X →
            StepConserves (credits s + s.weight) X := by
          intro step i hc
          unfold stepCore at hc
          dsimp only at hc
          by_cases hlt : ((step : ℝ) : EReal) < distToBoundary layer s.z s.uz
          · rw [if_pos hlt] at hc
            rcases interactionStep_cases u s layer step i with
              herr | ⟨_, s1, heq, hw, ha, hr, ht⟩
            · rw [herr] at hc
              exact Except.noConfusion hc
            · rw [heq] at hc
              cases hc
              apply rouletteCheck_conserves Hu
              simp only [credits, hw, ha, hr, ht]
              ring
          · rw [if_neg hlt] at hc
            cases hc
            rcases boundaryStep_cases L u s layer
                (distToBoundary layer s.z s.uz).toReal i with
              ⟨s1, hbeq, hw, hr, ht, ha⟩ | ⟨s2, hbeq, hw2, hc2⟩
            · rw [hbeq]
              apply rouletteCheck_conserves Hu
              simp only [credits, hw, ha, hr, ht]
            · rw [hbeq]
              exact hc2
        by_cases hmu : layer.mu_t > 0
        · rw [if_pos hmu] at h
          exact hcore _ _ h
        · rw [if_neg hmu] at h
          exact hcore _ _ h

theorem loop_conserves {L : List Layer} {u : ℕ → ℝ}
    (Hu : ∀ i, ROULETTE_CHANCE ≤ u i) :
    ∀ (fuel : ℕ) (s s' : TraceState) (ek : ExitKind),
      loop L u fuel s = .ok (s', ek) →
      (ek = .credited → credits s' = credits s + s.weight) ∧
      (ek = .tinyWeight →
        credits s' + s'.weight = credits s + s.weight ∧ s'.weight < 1e-10) ∧
      (ek = .fuelOut → credits s' + s'.weight = credits s + s.weight)
  | 0, s, s', ek, h => by
      cases h
      refine ⟨fun hek => ?_, fun hek => ?_, fun _ => rfl⟩
      · exact absurd hek (by simp)
      · exact absurd hek (by simp)
  | fuel + 1, s, s', ek, h => by
      rw [show fuel + 1 = fuel + 1 from rfl] at h
      unfold loop at h
      cases hstep : loopStep L u s with
      | error e =>
          rw [hstep] at h
          exact Except.noConfusion h
      | ok X =>
          rw [hstep] at h
          have hcons := loopStep_conserves Hu X hstep
          cases X with
          | done s1 ek1 =>
              cases h
              cases ek with
              | credited =>
                  exact ⟨fun _ => hcons, fun hek => absurd hek (by simp),
                    fun hek => absurd hek (by simp)⟩
              | tinyWeight =>
                  exact ⟨fun hek => absurd hek (by simp), fun _ => hcons,
                    fun hek => absurd hek (by simp)⟩
              | fuelOut => exact absurd hcons (by simp [StepConserves])
          | cont s1 =>
              have hrec := loop_conserves Hu fuel s1 s' ek h
              have hsum : credits s1 + s1.weight = credits s + s.weight := hcons
              refine ⟨fun hek => ?_, fun hek => ?_, fun hek => ?_⟩
              · rw [hrec.1 hek, hsum]
              · exact ⟨by rw [(hrec.2.1 hek).1, hsum], (hrec.2.1 hek).2⟩
              · rw [hrec.2.2 hek, hsum]

/-- C1 (amended): with no Russian-roulette survival (every roulette draw is at
least the survival chance), the credits returned by the propagation loop
account exactly for the packet's entry weight: a crediting exit returns
`reflected + transmitted + absorbed` equal to the starting
`credits + weight`; the `weight < 1e-10` break and the iteration-cap
fall-through fall short of it by exactly the (respectively sub-`1e-10` or
arbitrary) weight left on the packet.  Equivalently, a roulette survival is
the only event that breaks per-packet conservation of
`credits + weight`, boosting it by nine times the packet's weight. -/
theorem loop_conservation_no_survival (L : List Layer) (u : ℕ → ℝ)
    (Hu : ∀ i, ROULETTE_CHANCE ≤ u i) (fuel : ℕ) (s s' : TraceState)
    (ek : ExitKind) (h : loop L u fuel s = .ok (s', ek)) :
    (ek = .credited →
      s'.reflected + s'.transmitted + s'.absorbed =
        s.reflected + s.transmitted + s.absorbed + s.weight) ∧
    (ek = .tinyWeight →
      s'.reflected + s'.transmitted + s'.absorbed =
        s.reflected + s.transmitted + s.absorbed + s.weight - s'.weight ∧
      s'.weight < 1e-10) ∧
    (ek = .fuelOut →
      s'.reflected + s'.transmitted + s'.absorbed =
        s.reflected + s.transmitted + s.absorbed + s.weight - s'.weight) := by
  have h1 := loop_conserves Hu fuel s s' ek h
  simp only [credits] at h1
  refine ⟨fun hek => h1.1 hek, fun hek => ⟨?_, (h1.2.1 hek).2⟩,
    fun hek => ?_⟩
  · have := (h1.2.1 hek).1
    linarith
  · have := h1.2.2 hek
    linarith

theorem rouletteCheck_weight {u : ℕ → ℝ} {s1 s' : TraceState}
    (h : rouletteCheck u s1 = .cont s') (h0 : 0 ≤ s1.weight) :
    s' = s1 ∨
    (s1.weight < WEIGHT_THRESHOLD ∧
      s'.weight = s1.weight / ROULETTE_CHANCE ∧
      s'.weight ≤ WEIGHT_THRESHOLD / ROULETTE_CHANCE) := by
  rcases rouletteCheck_cont h with ⟨rfl, _⟩ | ⟨hw, _, rfl⟩
  · exact Or.inl rfl
  · right
    refine ⟨hw, rfl, ?_⟩
    have hrc : (0 : ℝ) < ROULETTE_CHANCE := by norm_num [ROULETTE_CHANCE]
    exact (div_le_div_right hrc).mpr hw.le

/-- C7: throughout a packet's trace over a stack with positive refractive
indices and nonnegative `mu_a`, `mu_s`, the weight stays in `[0,1]`: the entry
weight `1 * (1 - r_specular)` lies in `[0,1]`, and each loop iteration that
continues keeps the weight in `[0,1]`, non-increasing except for the Russian
roulette boost by the inverse survival probability, which still leaves the
weight at most `WEIGHT_THRESHOLD / ROULETTE_CHANCE = 1e-3 ≤ 1`. -/
theorem trace_weight_invariant (L : List Layer) (u : ℕ → ℝ)
    (hn : ∀ l ∈ L, 0 < l.n) (hmu : ∀ l ∈ L, 0 ≤ l.mu_a ∧ 0 ≤ l.mu_s) :
    (∀ layer, getLayerAtZ L 0 = some layer →
      0 ≤ 1 * (1 - fresnelReflectance N_AMBIENT layer.n 1) ∧
      1 * (1 - fresnelReflectance N_AMBIENT layer.n 1) ≤ 1) ∧
    (∀ s s', 0 ≤ s.weight → s.weight ≤ 1 →
      loopStep L u s = .ok (.cont s') →
      (0 ≤ s'.weight ∧ s'.weight ≤ 1) ∧
      (s'.weight ≤ s.weight ∨
        s'.weight ≤ WEIGHT_THRESHOLD / ROULETTE_CHANCE)) := by
  have hwtrc : WEIGHT_THRESHOLD / ROULETTE_CHANCE ≤ (1 : ℝ) := by
    norm_num [WEIGHT_THRESHOLD, ROULETTE_CHANCE]
  constructor
  · intro layer hlayer
    have hb := fresnel_mem_aux N_AMBIENT layer.n 1 (by norm_num [N_AMBIENT])
      (hn layer (getLayerAtZ_mem L 0 layer hlayer)) (by norm_num) (by norm_num)
    exact ⟨by linarith [hb.2], by linarith [hb.1]⟩
  · intro s s' h0 h1 h
    unfold loopStep at h
    by_cases htiny : s.weight < 1e-10
    · rw [if_pos htiny] at h
      simp only [Except.ok.injEq] at h
      exact StepResult.noConfusion h
    · rw [if_neg htiny] at h
      cases hL : getLayerAtZ L s.z with
      | none =>
          rw [hL] at h
          dsimp only at h
          by_cases hup : s.uz < 0
          · rw [if_pos hup] at h
            simp only [Except.ok.injEq] at h
            exact StepResult.noConfusion h
          · rw [if_neg hup] at h
            simp only [Except.ok.injEq] at h
            exact StepResult.noConfusion h
      | some layer =>
          rw [hL] at h
          dsimp only at h
          obtain ⟨hma, hms⟩ := hmu layer (getLayerAtZ_mem L s.z layer hL)
          have hcore : ∀ (step : ℝ) (i : ℕ),
              stepCore L u s layer step i = .ok (.cont s') →
              (0 ≤ s'.weight ∧ s'.weight ≤ 1) ∧
              (s'.weight ≤ s.weight ∨
                s'.weight ≤ WEIGHT_THRESHOLD / ROULETTE_CHANCE) := by
            intro step i hc
            unfold stepCore at hc
            dsimp only at hc
            by_cases hlt : ((step : ℝ) : EReal) < distToBoundary layer s.z s.uz
            · rw [if_pos hlt] at hc
              rcases interactionStep_cases u s layer step i with
                herr | ⟨hne, s1, heq, hw, ha, hr, ht⟩
              · rw [herr] at hc
                exact Except.noConfusion hc
              · rw [heq] at hc
                simp only [Except.ok.injEq] at hc
                have hmt : 0 < layer.mu_t := by
                  rcases lt_or_eq_of_le
                      (show (0 : ℝ) ≤ layer.mu_t by
                        simp only [Layer.mu_t]; linarith) with hpos | heq0
                  · exact hpos
                  · exact absurd heq0.symm hne
                have hdnn : 0 ≤ s.weight * layer.mu_a / layer.mu_t :=
                  div_nonneg (mul_nonneg h0 hma) hmt.le
                have hdle : s.weight * layer.mu_a / layer.mu_t ≤ s.weight := by
                  rw [div_le_iff hmt]
                  have hat : layer.mu_a ≤ layer.mu_t := by
                    simp only [Layer.mu_t]; linarith
                  nlinarith
                have h10 : 0 ≤ s1.weight := by rw [hw]; linarith
                have h11 : s1.weight ≤ s.weight := by rw [hw]; linarith
                rcases rouletteCheck_weight hc h10 with rfl | ⟨_, hwv, hble⟩
                · exact ⟨⟨h10, le_trans h11 h1⟩, Or.inl h11⟩
                · refine ⟨⟨?_, le_trans hble hwtrc⟩, Or.inr hble⟩
                  rw [hwv]
                  exact div_nonneg h10 (by norm_num [ROULETTE_CHANCE])
            · rw [if_neg hlt] at hc
              simp only [Except.ok.injEq] at hc
              rcases boundaryStep_cases L u s layer
                  (distToBoundary layer s.z s.uz).toReal i with
                ⟨s1, hbeq, hw, hr, ht, ha⟩ | ⟨s2, hbeq, hw2, hc2⟩
              · rw [hbeq] at hc
                have h10 : 0 ≤ s1.weight := by rw [hw]; exact h0
                rcases rouletteCheck_weight hc h10 with rfl | ⟨_, hwv, hble⟩
                · refine ⟨⟨h10, ?_⟩, Or.inl (le_of_eq hw)⟩
                  rw [hw]; exact h1
                · refine ⟨⟨?_, le_trans hble hwtrc⟩, Or.inr hble⟩
                  rw [hwv]
                  exact div_nonneg h10 (by norm_num [ROULETTE_CHANCE])
              · rw [hbeq] at hc
                exact StepResult.noConfusion hc
          by_cases hmt0 : layer.mu_t > 0
          · rw [if_pos hmt0] at h
            exact hcore _ _ h
          · rw [if_neg hmt0] at h
            exact hcore _ _ h

/-- A fresh packet state used to witness the loop-level theorems. -/
def witState : TraceState :=
  { x := 0, y := 0, z := 0, ux := 0, uy := 0, uz := 1, weight := 1,
    reflected := 0, transmitted := 0, absorbed := 0, deposits := [], idx := 0 }

/-- Witness for the amended C1: a zero-fuel loop exits via the cap
fall-through and its credits fall short of the entry `credits + weight` by
exactly the leftover weight. -/
theorem loop_conservation_no_survival_witness :
    witState.reflected + witState.transmitted + witState.absorbed =
      witState.reflected + witState.transmitted + witState.absorbed +
        witState.weight - witState.weight := by
  have hloop : loop [] (fun _ : ℕ => (1 / 2 : ℝ)) 0 witState =
      .ok (witState, .fuelOut) := rfl
  exact (loop_conservation_no_survival [] _
    (fun i => by norm_num [ROULETTE_CHANCE]) 0 witState witState .fuelOut
    hloop).2.2 rfl

/-! ## Evaluation helpers for concrete traces -/

theorem fresnel_self (n c : ℝ) : fresnelReflectance n n c = 0 := by
  simp [fresnelReflectance]

theorem buildStack_single_inf (sp : LayerSpec) (h : sp.thickness = ⊤) :
    buildStack [sp] =
      [{ name := sp.name, thickness := sp.thickness, n := sp.n,
         mu_a := sp.mu_a, mu_s := sp.mu_s, g := sp.g,
         z_top := (0 : EReal), z_bottom := ⊤ }] := by
  simp [buildStack, addLayer, h, List.getLast?]

theorem getLayerAtZ_single_inf (l : Layer) (hz : l.z_top = (0 : EReal))
    (hb : l.z_bottom = ⊤) (z : ℝ) (h : 0 ≤ z) :
    getLayerAtZ [l] z = some l := by
  unfold getLayerAtZ
  rw [if_pos]
  exact ⟨by rw [hz]; exact EReal.coe_nonneg.mpr h, by rw [hb]; exact EReal.coe_lt_top z⟩

theorem dist_inf_down (l : Layer) (hb : l.z_bottom = ⊤) (z : ℝ) {uz : ℝ}
    (h : 0 < uz) : distToBoundary l z uz = ⊤ := by
  unfold distToBoundary
  rw [if_pos h, if_pos hb]

theorem dist_top_up (l : Layer) (ht : l.z_top = (0 : EReal)) (z : ℝ) :
    distToBoundary l z (-1) = ((z : ℝ) : EReal) := by
  unfold distToBoundary
  rw [if_neg (by norm_num : ¬ (-1 : ℝ) > 0), if_pos (by norm_num : (-1 : ℝ) < 0),
    ht, if_neg (by simp : ¬ (0 : EReal) = ⊤), if_neg (by simp : ¬ (0 : EReal) = ⊥)]
  norm_num [EReal.toReal_zero]

theorem scatter_down_flip :
    scatterDirection 0 0 1 0 0 0 = (0, 0, -1) := by
  unfold scatterDirection hgCosTheta
  rw [if_pos (by norm_num [COS_CRITICAL] : |(1 : ℝ)| > COS_CRITICAL),
    if_pos (by norm_num : |(0 : ℝ)| < 1e-6)]
  norm_num [Real.sign_one, Real.cos_zero, Real.sin_zero,
    show (1 : ℝ) - (2 * 0 - 1) ^ 2 = 0 by norm_num, Real.sqrt_zero]

theorem scatter_down_horiz :
    scatterDirection 0 0 1 0 (1 / 2) (1 / 2) = (-1, 0, 0) := by
  unfold scatterDirection hgCosTheta
  rw [if_pos (by norm_num [COS_CRITICAL] : |(1 : ℝ)| > COS_CRITICAL),
    if_pos (by norm_num : |(0 : ℝ)| < 1e-6),
    show (2 : ℝ) * Real.pi * (1 / 2) = Real.pi by ring]
  norm_num [Real.sign_one, Real.cos_pi, Real.sin_pi,
    show (1 : ℝ) - (2 * (1 / 2) - 1) ^ 2 = 1 by norm_num, Real.sqrt_one]

theorem scatter_horiz_down :
    scatterDirection (-1) 0 0 0 (1 / 2) (1 / 2) = (0, 0, 1) := by
  unfold scatterDirection hgCosTheta
  rw [if_neg (by norm_num [COS_CRITICAL] : ¬ |(0 : ℝ)| > COS_CRITICAL),
    if_pos (by norm_num : |(0 : ℝ)| < 1e-6),
    show (2 : ℝ) * Real.pi * (1 / 2) = Real.pi by ring]
  norm_num [Real.cos_pi, Real.sin_pi,
    show (1 : ℝ) - (2 * (1 / 2) - 1) ^ 2 = 1 by norm_num, Real.sqrt_one,
    show (1 : ℝ) - 0 ^ 2 = 1 by norm_num]

theorem loop_eval_cont {L : List Layer} {u : ℕ → ℝ} {fuel : ℕ}
    {s s1 : TraceState} (h : loopStep L u s = .ok (.cont s1)) :
    loop L u (fuel + 1) s = loop L u fuel s1 := by
  conv_lhs => rw [loop]
  rw [h]

theorem loop_eval_done {L : List Layer} {u : ℕ → ℝ} {fuel : ℕ}
    {s s1 : TraceState} {ek : ExitKind} (h : loopStep L u s = .ok (.done s1 ek)) :
    loop L u (fuel + 1) s = .ok (s1, ek) := by
  conv_lhs => rw [loop]
  rw [h]

theorem loop_eval_error {L : List Layer} {u : ℕ → ℝ} {fuel : ℕ}
    {s : TraceState} {e : PyError} (h : loopStep L u s = .error e) :
    loop L u (fuel + 1) s = .error e := by
  conv_lhs => rw [loop]
  rw [h]

/-! ## Concrete single-layer stacks and draw streams -/

/-- A single semi-infinite matched-index layer with `mu_a = mu_s = 1`. -/
def layerBal : Layer :=
  { name := "balanced", thickness := ⊤, n := 1, mu_a := 1, mu_s := 1, g := 0,
    z_top := (0 : EReal), z_bottom := ⊤ }

/-- The stack holding just `layerBal`, as `add_layer` produces it. -/
def stackBal : List Layer := [layerBal]

/-- The `add_layer` argument producing `layerBal`. -/
def specBal : LayerSpec :=
  { name := "balanced", thickness := ⊤, n := 1, mu_a := 1, mu_s := 1, g := 0 }

theorem stackBal_eval : buildStack [specBal] = stackBal := by
  rw [buildStack_single_inf specBal rfl]
  rfl

/-- Draw stream: `exp(-1)` for draw 0, `0` for every other draw. -/
def streamExpZero : ℕ → ℝ := fun i => if i = 0 then Real.exp (-1) else 0

/-- The state after the first loop iteration of a packet in `stackBal` under
`streamExpZero`: an interaction at depth `1/2` that deposits half the weight
and scatters the packet straight up. -/
def wit7out : TraceState :=
  { x := 0, y := 0, z := 1 / 2, ux := 0, uy := 0, uz := -1, weight := 1 / 2,
    reflected := 0, transmitted := 0, absorbed := 1 / 2,
    deposits := [(1 / 2, 0, 1 / 2)], idx := 3 }

theorem loopStep_wit7 :
    loopStep stackBal streamExpZero witState = .ok (.cont wit7out) := by
  have hlayer : getLayerAtZ stackBal 0 = some layerBal :=
    getLayerAtZ_single_inf layerBal rfl rfl 0 le_rfl
  have hu0 : streamExpZero 0 = Real.exp (-1) := by norm_num [streamExpZero]
  have hu1 : streamExpZero 1 = 0 := by norm_num [streamExpZero]
  have hu2 : streamExpZero 2 = 0 := by norm_num [streamExpZero]
  have hstep : -Real.log (streamExpZero 0) / layerBal.mu_t = 1 / 2 := by
    rw [hu0, Real.log_exp]
    norm_num [layerBal, Layer.mu_t]
  unfold loopStep witState
  dsimp only
  rw [if_neg (by norm_num : ¬ (1 : ℝ) < 1e-10), hlayer]
  dsimp only
  rw [if_pos (by norm_num [layerBal, Layer.mu_t] : layerBal.mu_t > 0), hstep]
  unfold stepCore
  dsimp only
  rw [if_pos (show ((1 / 2 : ℝ) : EReal) < distToBoundary layerBal 0 1 by
    rw [dist_inf_down layerBal rfl 0 one_pos]; exact EReal.coe_lt_top _)]
  unfold interactionStep
  dsimp only
  rw [if_neg (by norm_num [layerBal, Layer.mu_t] : ¬ layerBal.mu_t = 0),
    hu1, hu2]
  rw [show (layerBal.g : ℝ) = 0 from rfl, scatter_down_flip]
  unfold rouletteCheck
  dsimp only
  rw [if_neg (by norm_num [layerBal, Layer.mu_t, WEIGHT_THRESHOLD] :
        ¬ (1 : ℝ) - 1 * layerBal.mu_a / layerBal.mu_t < WEIGHT_THRESHOLD)]
  unfold wit7out
  norm_num [layerBal, Layer.mu_t, Real.sqrt_zero]

/-- Witness for C7: the first iteration of a `stackBal` packet continues with
weight `1/2`, inside `[0,1]` and not above the previous weight `1`. -/
theorem trace_weight_invariant_witness :
    loopStep stackBal streamExpZero witState = .ok (.cont wit7out) ∧
    (0 ≤ wit7out.weight ∧ wit7out.weight ≤ 1) ∧
    (wit7out.weight ≤ witState.weight ∨
      wit7out.weight ≤ WEIGHT_THRESHOLD / ROULETTE_CHANCE) := by
  refine ⟨loopStep_wit7, ?_⟩
  have hn : ∀ l ∈ stackBal, 0 < l.n := by
    intro l hl
    simp only [stackBal, List.mem_singleton] at hl
    subst hl
    norm_num [layerBal]
  have hmu : ∀ l ∈ stackBal, 0 ≤ l.mu_a ∧ 0 ≤ l.mu_s := by
    intro l hl
    simp only [stackBal, List.mem_singleton] at hl
    subst hl
    norm_num [layerBal]
  exact (trace_weight_invariant stackBal streamExpZero hn hmu).2
    witState wit7out (by norm_num [witState]) (by norm_num [witState])
    loopStep_wit7

/-! ## A roulette-surviving packet breaks per-packet conservation (C1) -/

/-- A single semi-infinite matched-index layer with `mu_a = 19999`,
`mu_s = 1`: one interaction leaves weight `1/20000`, below the roulette
threshold. -/
def layerRoul : Layer :=
  { name := "roulette", thickness := ⊤, n := 1, mu_a := 19999, mu_s := 1,
    g := 0, z_top := (0 : EReal), z_bottom := ⊤ }

/-- The stack holding just `layerRoul`, as `add_layer` produces it. -/
def stackRoul : List Layer := [layerRoul]

/-- The `add_layer` argument producing `layerRoul`. -/
def specRoul : LayerSpec :=
  { name := "roulette", thickness := ⊤, n := 1, mu_a := 19999, mu_s := 1,
    g := 0 }

theorem stackRoul_eval : buildStack [specRoul] = stackRoul := by
  rw [buildStack_single_inf specRoul rfl]
  rfl

/-- Draws: `exp(-1)` for the two step draws (indices 0 and 4), `0` elsewhere,
so the roulette draw (index 3) survives and the exit-interface draw (index 5)
transmits. -/
def streamRoul : ℕ → ℝ := fun i => if i = 0 ∨ i = 4 then Real.exp (-1) else 0

/-- State after iteration 1: deposit `19999/20000` at depth `1/20000`, scatter
straight up, survive roulette with the boosted weight `1/2000`. -/
def roulS1 : TraceState :=
  { x := 0, y := 0, z := 1 / 20000, ux := 0, uy := 0, uz := -1,
    weight := 1 / 2000, reflected := 0, transmitted := 0,
    absorbed := 19999 / 20000, deposits := [(1 / 20000, 0, 19999 / 20000)],
    idx := 4 }

/-- Final state: the boosted weight exits through the top surface. -/
def roulS2 : TraceState :=
  { x := 0, y := 0, z := 0, ux := 0, uy := 0, uz := -1, weight := 1 / 2000,
    reflected := 1 / 2000, transmitted := 0, absorbed := 19999 / 20000,
    deposits := [(1 / 20000, 0, 19999 / 20000)], idx := 6 }

theorem tracePhotonAux_roul_start :
    tracePhotonAux stackRoul streamRoul 0 =
      loop stackRoul streamRoul MAX_STEPS witState := by
  have hlayer : getLayerAtZ stackRoul 0 = some layerRoul :=
    getLayerAtZ_single_inf layerRoul rfl rfl 0 le_rfl
  unfold tracePhotonAux
  rw [hlayer]
  dsimp only
  rw [show layerRoul.n = (1 : ℝ) from rfl, show N_AMBIENT = (1 : ℝ) by norm_num [N_AMBIENT],
    fresnel_self]
  norm_num [witState]

theorem loopStep_roul1 :
    loopStep stackRoul streamRoul witState = .ok (.cont roulS1) := by
  have hu1 : streamRoul 1 = 0 := by norm_num [streamRoul]
  have hu2 : streamRoul 2 = 0 := by norm_num [streamRoul]
  have hstep : -Real.log (streamRoul 0) / layerRoul.mu_t = 1 / 20000 := by
    rw [show streamRoul 0 = Real.exp (-1) by norm_num [streamRoul],
      Real.log_exp]
    norm_num [layerRoul, Layer.mu_t]
  unfold loopStep witState
  dsimp only
  have hlayer : getLayerAtZ stackRoul 0 = some layerRoul :=
    getLayerAtZ_single_inf layerRoul rfl rfl 0 le_rfl
  rw [if_neg (by norm_num : ¬ (1 : ℝ) < 1e-10), hlayer]
  dsimp only
  rw [if_pos (by norm_num [layerRoul, Layer.mu_t] : layerRoul.mu_t > 0), hstep]
  unfold stepCore
  dsimp only
  rw [if_pos (show ((1 / 20000 : ℝ) : EReal) < distToBoundary layerRoul 0 1 by
    rw [dist_inf_down layerRoul rfl 0 one_pos]; exact EReal.coe_lt_top _)]
  unfold interactionStep
  dsimp only
  rw [if_neg (by norm_num [layerRoul, Layer.mu_t] : ¬ layerRoul.mu_t = 0),
    hu1, hu2, show (layerRoul.g : ℝ) = 0 from rfl, scatter_down_flip]
  unfold rouletteCheck
  dsimp only
  rw [if_pos (by norm_num [layerRoul, Layer.mu_t, WEIGHT_THRESHOLD] :
        (1 : ℝ) - 1 * layerRoul.mu_a / layerRoul.mu_t < WEIGHT_THRESHOLD)]
  rw [if_pos (by norm_num [streamRoul, ROULETTE_CHANCE] :
        streamRoul (1 + 2) < ROULETTE_CHANCE)]
  unfold roulS1
  norm_num [layerRoul, Layer.mu_t, ROULETTE_CHANCE, Real.sqrt_zero]

theorem loopStep_roul2 :
    loopStep stackRoul streamRoul roulS1 = .ok (.done roulS2 .credited) := by
  have hstep : -Real.log (streamRoul 4) / layerRoul.mu_t = 1 / 20000 := by
    rw [show streamRoul 4 = Real.exp (-1) by norm_num [streamRoul],
      Real.log_exp]
    norm_num [layerRoul, Layer.mu_t]
  have hdist : distToBoundary layerRoul (1 / 20000) (-1) =
      ((1 / 20000 : ℝ) : EReal) := dist_top_up layerRoul rfl (1 / 20000)
  unfold loopStep roulS1
  dsimp only
  have hlayer : getLayerAtZ stackRoul (1 / 20000) = some layerRoul :=
    getLayerAtZ_single_inf layerRoul rfl rfl (1 / 20000) (by norm_num)
  rw [if_neg (by norm_num : ¬ (1 / 2000 : ℝ) < 1e-10), hlayer]
  dsimp only
  rw [if_pos (by norm_num [layerRoul, Layer.mu_t] : layerRoul.mu_t > 0), hstep]
  unfold stepCore
  dsimp only
  rw [hdist, if_neg (lt_irrefl (((1 / 20000 : ℝ) : EReal))), EReal.toReal_coe]
  unfold boundaryStep
  dsimp only
  rw [if_neg (by norm_num : ¬ (-1 : ℝ) > 0),
    if_pos (by norm_num : (1 / 20000 : ℝ) + 1 / 20000 * -1 - 1e-6 < 0),
    show layerRoul.n = (1 : ℝ) from rfl, show N_AMBIENT = (1 : ℝ) by norm_num [N_AMBIENT],
    fresnel_self,
    if_neg (by norm_num [streamRoul] : ¬ streamRoul (4 + 1) < 0)]
  unfold roulS2
  norm_num

theorem tracePhotonAux_roul_eval :
    tracePhotonAux stackRoul streamRoul 0 = .ok (roulS2, .credited) := by
  rw [tracePhotonAux_roul_start, show MAX_STEPS = 99999 + 1 by norm_num [MAX_STEPS],
    loop_eval_cont loopStep_roul1, show (99999 : ℕ) = 99998 + 1 by norm_num,
    loop_eval_done loopStep_roul2]

/-- C1 (counterexample): a packet of `stackRoul` under `streamRoul` survives
one Russian roulette, and its terminal credits sum to `1 + 9/20000`, missing
the packet's initial weight `1.0` by `9/20000 = 4.5e-4`, far beyond any
floating-point tolerance such as `1e-9`; so per-packet conservation fails as
stated. -/
theorem tracePhoton_conservation_violated :
    tracePhoton stackRoul streamRoul =
      .ok (1 / 2000, 0, 19999 / 20000, [(1 / 20000, 0, 19999 / 20000)]) ∧
    (1 / 2000 + 0 + 19999 / 20000 : ℝ) = 1 + 9 / 20000 ∧
    (1e-9 : ℝ) < 9 / 20000 := by
  refine ⟨?_, by norm_num, by norm_num⟩
  unfold tracePhoton
  rw [tracePhotonAux_roul_eval]
  rfl

/-! ## Run-level evaluation helpers -/

theorem runLoop_eval_error {L : List Layer} {u : ℕ → ℝ} {k : ℕ}
    {acc : RunAccum} {e : PyError} (h : tracePhotonAux L u acc.idx = .error e) :
    runLoop L u (k + 1) acc = .error e := by
  conv_lhs => rw [runLoop]
  rw [h]

theorem runLoop_eval_single {L : List Layer} {u : ℕ → ℝ} (acc : RunAccum)
    {s : TraceState} {ek : ExitKind} (h : tracePhotonAux L u acc.idx = .ok (s, ek)) :
    runLoop L u 1 acc =
      .ok { totR := acc.totR + s.reflected, totT := acc.totT + s.transmitted,
            totA := acc.totA + s.absorbed,
            fz := (scoreAll (acc.fz, acc.frz) s.deposits).1,
            frz := (scoreAll (acc.fz, acc.frz) s.deposits).2,
            idx := s.idx } := by
  conv_lhs => rw [show (1 : ℕ) = 0 + 1 from rfl, runLoop]
  rw [h]
  rfl

/-- The starting accumulator of `run`. -/
def accInit : RunAccum :=
  { totR := 0, totT := 0, totA := 0, fz := fun _ => 0, frz := fun _ _ => 0,
    idx := 0 }

theorem run_ok_eval (L : List Layer) (n : ℤ) (u : ℕ → ℝ) {acc : RunAccum}
    (hL : ¬ L.length = 0) (hn : ¬ n = 0)
    (h : runLoop L u n.toNat accInit = .ok acc) :
    run L n u =
      .ok { reflectance := acc.totR / (n : ℝ),
            transmittance := acc.totT / (n : ℝ),
            absorptionFraction := acc.totA / (n : ℝ),
            fluenceZ := normalizeFz acc.fz (n : ℝ),
            fluenceRZ := normalizeFrz acc.frz (n : ℝ),
            penetrationDepth1e := (computePen (normalizeFz acc.fz (n : ℝ))).1,
            penetrationDepth1e2 := (computePen (normalizeFz acc.fz (n : ℝ))).2,
            effectiveAttenuation := muEffOf (normalizeFz acc.fz (n : ℝ)) } := by
  unfold accInit at h
  unfold run
  rw [if_neg hL, h]
  dsimp only
  rw [if_neg hn]

theorem run_error_eval {L : List Layer} {n : ℤ} {u : ℕ → ℝ} {e : PyError}
    (hL : ¬ L.length = 0) (h : runLoop L u n.toNat accInit = .error e) :
    run L n u = .error e := by
  unfold accInit at h
  unfold run
  rw [if_neg hL, h]

/-! ## The zero-scattering, zero-absorption stack crashes the trace (C2) -/

/-- A single semi-infinite layer with `mu_a = mu_s = 0` and `n = 1` matching
the ambient index, the configuration of the zero-scattering validation
scenario. -/
def layerNull : Layer :=
  { name := "null", thickness := ⊤, n := 1, mu_a := 0, mu_s := 0, g := 0,
    z_top := (0 : EReal), z_bottom := ⊤ }

/-- The stack holding just `layerNull`, as `add_layer` produces it. -/
def stackNull : List Layer := [layerNull]

/-- The `add_layer` argument producing `layerNull`. -/
def specNull : LayerSpec :=
  { name := "null", thickness := ⊤, n := 1, mu_a := 0, mu_s := 0, g := 0 }

theorem stackNull_eval : buildStack [specNull] = stackNull := by
  rw [buildStack_single_inf specNull rfl]
  rfl

theorem loopStep_null (u : ℕ → ℝ) :
    loopStep stackNull u witState = .error .zeroDivisionError := by
  have hlayer : getLayerAtZ stackNull 0 = some layerNull :=
    getLayerAtZ_single_inf layerNull rfl rfl 0 le_rfl
  unfold loopStep witState
  dsimp only
  rw [if_neg (by norm_num : ¬ (1 : ℝ) < 1e-10), hlayer]
  dsimp only
  rw [if_neg (by norm_num [layerNull, Layer.mu_t] : ¬ layerNull.mu_t > 0)]
  unfold stepCore
  dsimp only
  rw [if_pos (show ((1e10 : ℝ) : EReal) < distToBoundary layerNull 0 1 by
    rw [dist_inf_down layerNull rfl 0 one_pos]; exact EReal.coe_lt_top _)]
  unfold interactionStep
  dsimp only
  rw [if_pos (by norm_num [layerNull, Layer.mu_t] : layerNull.mu_t = 0)]

theorem tracePhotonAux_null_start (u : ℕ → ℝ) :
    tracePhotonAux stackNull u 0 = loop stackNull u MAX_STEPS witState := by
  have hlayer : getLayerAtZ stackNull 0 = some layerNull :=
    getLayerAtZ_single_inf layerNull rfl rfl 0 le_rfl
  unfold tracePhotonAux
  rw [hlayer]
  dsimp only
  rw [show layerNull.n = (1 : ℝ) from rfl,
    show N_AMBIENT = (1 : ℝ) by norm_num [N_AMBIENT], fresnel_self]
  norm_num [witState]

theorem tracePhotonAux_null (u : ℕ → ℝ) :
    tracePhotonAux stackNull u 0 = .error .zeroDivisionError := by
  rw [tracePhotonAux_null_start, show MAX_STEPS = 99999 + 1 by norm_num [MAX_STEPS],
    loop_eval_error (loopStep_null u)]

/-- C2: contrary to the claim, for the single semi-infinite layer with
`mu_a = mu_s = 0` and `n = 1` matching ambient, every run raises
`ZeroDivisionError` instead of reporting reflectance 0 and transmittance 1:
with `mu_t = 0` the sampled step is the `1e10` sentinel, the boundary distance
is infinite, so the in-layer interaction branch is taken and the absorption
deposit `weight * mu_a / mu_t` divides zero by zero. -/
theorem run_null_zeroDivision (u : ℕ → ℝ) :
    run stackNull 1 u = .error .zeroDivisionError := by
  apply run_error_eval (by norm_num [stackNull])
  rw [show (1 : ℤ).toNat = 0 + 1 from rfl]
  exact runLoop_eval_error (tracePhotonAux_null u)

/-! ## Silent exhaustion of the iteration cap (C3) -/

/-- A single semi-infinite matched-index layer that only scatters
(`mu_a = 0`, `mu_s = 1`, `g = 0`). -/
def layerScat : Layer :=
  { name := "scatter", thickness := ⊤, n := 1, mu_a := 0, mu_s := 1, g := 0,
    z_top := (0 : EReal), z_bottom := ⊤ }

/-- The stack holding just `layerScat`, as `add_layer` produces it. -/
def stackScat : List Layer := [layerScat]

/-- The `add_layer` argument producing `layerScat`. -/
def specScat : LayerSpec :=
  { name := "scatter", thickness := ⊤, n := 1, mu_a := 0, mu_s := 1, g := 0 }

theorem stackScat_eval : buildStack [specScat] = stackScat := by
  rw [buildStack_single_inf specScat rfl]
  rfl

/-- The constant draw stream `1/2`. -/
def streamHalf : ℕ → ℝ := fun _ => 1 / 2

theorem dist_horiz (l : Layer) (z : ℝ) :
    distToBoundary l z 0 = ((1e10 : ℝ) : EReal) := by
  unfold distToBoundary
  rw [if_neg (by norm_num : ¬ (0 : ℝ) > 0), if_neg (by norm_num : ¬ (0 : ℝ) < 0)]

/-- Invariant of a `stackScat` packet under `streamHalf`: full weight, no
credits, nonnegative depth, direction alternating between straight down and
horizontal, and only weightless deposits; such a packet never terminates. -/
def ScatState (s : TraceState) : Prop :=
  s.weight = 1 ∧ s.reflected = 0 ∧ s.transmitted = 0 ∧ s.absorbed = 0 ∧
  0 ≤ s.z ∧
  ((s.ux = 0 ∧ s.uy = 0 ∧ s.uz = 1) ∨ (s.ux = -1 ∧ s.uy = 0 ∧ s.uz = 0)) ∧
  ∀ d ∈ s.deposits, d.2.2 = 0

theorem scat_step (s : TraceState) (hs : ScatState s) :
    ∃ s', loopStep stackScat streamHalf s = .ok (.cont s') ∧ ScatState s' := by
  obtain ⟨hw, hr, ht, ha, hz, hdir, hdep⟩ := hs
  have hlayer : getLayerAtZ stackScat s.z = some layerScat :=
    getLayerAtZ_single_inf layerScat rfl rfl s.z hz
  have hmt : layerScat.mu_t > 0 := by norm_num [layerScat, Layer.mu_t]
  have hlog : Real.log (1 / 2) = -Real.log 2 := by
    rw [show (1 / 2 : ℝ) = 2⁻¹ by norm_num, Real.log_inv]
  have hstep : -Real.log (streamHalf s.idx) / layerScat.mu_t = Real.log 2 := by
    rw [show streamHalf s.idx = 1 / 2 from rfl, hlog]
    norm_num [layerScat, Layer.mu_t]
  have hlog2pos : (0 : ℝ) < Real.log 2 := Real.log_pos (by norm_num)
  have hnw : ¬ s.weight < 1e-10 := by rw [hw]; norm_num
  have hnwt : ¬ s.weight - s.weight * layerScat.mu_a / layerScat.mu_t <
      WEIGHT_THRESHOLD := by
    rw [hw]
    norm_num [layerScat, Layer.mu_t, WEIGHT_THRESHOLD]
  rcases hdir with ⟨hux, huy, huz⟩ | ⟨hux, huy, huz⟩
  · -- heading straight down: interaction, scatter to horizontal
    refine ⟨?_, ?_, ?_⟩
    rotate_left
    · unfold loopStep
      rw [if_neg hnw, hlayer]
      dsimp only
      rw [if_pos hmt, hstep]
      unfold stepCore
      dsimp only
      rw [huz, dist_inf_down layerScat rfl s.z one_pos,
        if_pos (EReal.coe_lt_top _)]
      unfold interactionStep
      dsimp only
      rw [if_neg (by norm_num [layerScat, Layer.mu_t] : ¬ layerScat.mu_t = 0),
        hux, huy, huz, show streamHalf (s.idx + 1) = 1 / 2 from rfl,
        show streamHalf (s.idx + 1 + 1) = 1 / 2 from rfl,
        show (layerScat.g : ℝ) = 0 from rfl, scatter_down_horiz]
      unfold rouletteCheck
      dsimp only
      rw [if_neg hnwt]
      exact rfl
    · refine ⟨?_, hr, ht, ?_, ?_, Or.inr ⟨rfl, rfl, rfl⟩, ?_⟩
      · show s.weight - s.weight * layerScat.mu_a / layerScat.mu_t = 1
        rw [hw]
        norm_num [layerScat, Layer.mu_t]
      · show s.absorbed + s.weight * layerScat.mu_a / layerScat.mu_t = 0
        rw [ha, hw]
        norm_num [layerScat, Layer.mu_t]
      · show 0 ≤ s.z + Real.log 2 * 1
        linarith
      · intro d hd
        rw [List.mem_append] at hd
        rcases hd with hd | hd
        · exact hdep d hd
        · rw [List.mem_singleton] at hd
          subst hd
          show s.weight * layerScat.mu_a / layerScat.mu_t = 0
          norm_num [layerScat, Layer.mu_t]
  · -- heading horizontally: interaction in place, scatter back to downward
    refine ⟨?_, ?_, ?_⟩
    rotate_left
    · unfold loopStep
      rw [if_neg hnw, hlayer]
      dsimp only
      rw [if_pos hmt, hstep]
      unfold stepCore
      dsimp only
      rw [huz, dist_horiz layerScat s.z,
        if_pos (by
          rw [EReal.coe_lt_coe_iff]
          calc Real.log 2 < 2 - 1 :=
              Real.log_lt_sub_one_of_pos (by norm_num) (by norm_num)
            _ < 1e10 := by norm_num)]
      unfold interactionStep
      dsimp only
      rw [if_neg (by norm_num [layerScat, Layer.mu_t] : ¬ layerScat.mu_t = 0),
        hux, huy, huz, show streamHalf (s.idx + 1) = 1 / 2 from rfl,
        show streamHalf (s.idx + 1 + 1) = 1 / 2 from rfl,
        show (layerScat.g : ℝ) = 0 from rfl, scatter_horiz_down]
      unfold rouletteCheck
      dsimp only
      rw [if_neg hnwt]
      exact rfl
    · refine ⟨?_, hr, ht, ?_, ?_, Or.inl ⟨rfl, rfl, rfl⟩, ?_⟩
      · show s.weight - s.weight * layerScat.mu_a / layerScat.mu_t = 1
        rw [hw]
        norm_num [layerScat, Layer.mu_t]
      · show s.absorbed + s.weight * layerScat.mu_a / layerScat.mu_t = 0
        rw [ha, hw]
        norm_num [layerScat, Layer.mu_t]
      · show 0 ≤ s.z + Real.log 2 * 0
        rw [mul_zero, add_zero]
        exact hz
      · intro d hd
        rw [List.mem_append] at hd
        rcases hd with hd | hd
        · exact hdep d hd
        · rw [List.mem_singleton] at hd
          subst hd
          show s.weight * layerScat.mu_a / layerScat.mu_t = 0
          norm_num [layerScat, Layer.mu_t]

theorem scat_loop : ∀ (fuel : ℕ) (s : TraceState), ScatState s →
    ∃ s', loop stackScat streamHalf fuel s = .ok (s', .fuelOut) ∧ ScatState s'
  | 0, s, hs => ⟨s, rfl, hs⟩
  | fuel + 1, s, hs => by
      obtain ⟨s1, hstep, hs1⟩ := scat_step s hs
      obtain ⟨s', hloop, hs'⟩ := scat_loop fuel s1 hs1
      exact ⟨s', by rw [loop_eval_cont hstep]; exact hloop, hs'⟩

theorem scatState_init : ScatState witState := by
  unfold ScatState witState
  refine ⟨rfl, rfl, rfl, rfl, le_rfl, Or.inl ⟨rfl, rfl, rfl⟩, ?_⟩
  intro d hd
  cases hd

theorem tracePhotonAux_scat_start :
    tracePhotonAux stackScat streamHalf 0 =
      loop stackScat streamHalf MAX_STEPS witState := by
  have hlayer : getLayerAtZ stackScat 0 = some layerScat :=
    getLayerAtZ_single_inf layerScat rfl rfl 0 le_rfl
  unfold tracePhotonAux
  rw [hlayer]
  dsimp only
  rw [show layerScat.n = (1 : ℝ) from rfl,
    show N_AMBIENT = (1 : ℝ) by norm_num [N_AMBIENT], fresnel_self]
  norm_num [witState]

/-- C3: exceeding the iteration cap is NOT reported: for the purely
scattering matched stack under constant draws `1/2`, the propagation loop
exhausts its 100000-iteration cap with the packet still carrying its full
weight `1`, yet `_trace_photon` returns an ordinary quadruple
`(0, 0, 0, deposits)` with the leftover weight in no bucket, and `run`
aggregates it into an ordinary result with zero totals -- no error, warning
or anomaly count reaches the caller. -/
theorem cap_exhaustion_silent :
    ∃ s' : TraceState,
      tracePhotonAux stackScat streamHalf 0 = .ok (s', .fuelOut) ∧
      s'.weight = 1 ∧ s'.reflected = 0 ∧ s'.transmitted = 0 ∧
      s'.absorbed = 0 ∧
      tracePhoton stackScat streamHalf = .ok (0, 0, 0, s'.deposits) ∧
      ∃ R : RunResult, run stackScat 1 streamHalf = .ok R ∧
        R.reflectance = 0 ∧ R.transmittance = 0 ∧ R.absorptionFraction = 0 := by
  obtain ⟨s', hloop, hs'⟩ := scat_loop MAX_STEPS witState scatState_init
  obtain ⟨hw, hr, ht, ha, -, -, -⟩ := hs'
  have haux : tracePhotonAux stackScat streamHalf 0 = .ok (s', .fuelOut) := by
    rw [tracePhotonAux_scat_start]
    exact hloop
  refine ⟨s', haux, hw, hr, ht, ha, ?_, ?_⟩
  · unfold tracePhoton
    rw [haux]
    simp only [Except.map]
    rw [hr, ht, ha]
  · have hsingle := runLoop_eval_single accInit haux
    refine ⟨_, run_ok_eval stackScat 1 streamHalf (by norm_num [stackScat])
      (by norm_num)
      (by rw [show (1 : ℤ).toNat = 1 from rfl]; exact hsingle), ?_, ?_, ?_⟩
    · show (accInit.totR + s'.reflected) / ((1 : ℤ) : ℝ) = 0
      rw [hr]
      norm_num [accInit]
    · show (accInit.totT + s'.transmitted) / ((1 : ℤ) : ℝ) = 0
      rw [ht]
      norm_num [accInit]
    · show (accInit.totA + s'.absorbed) / ((1 : ℤ) : ℝ) = 0
      rw [ha]
      norm_num [accInit]

/-! ## Validation behaviour of run (C4) -/

/-- A malformed geometry: the semi-infinite layer first, followed by another
layer (whose computed top boundary is then at infinity). -/
def specsMal : List LayerSpec :=
  [{ name := "inf", thickness := ⊤, n := 1.4, mu_a := 1, mu_s := 1, g := 0 },
   { name := "after", thickness := ((1 : ℝ) : EReal), n := 1.4, mu_a := 1,
     mu_s := 1, g := 0 }]

/-- The malformed two-layer stack built by `add_layer`. -/
def stackMal : List Layer := buildStack specsMal

theorem stackMal_length : stackMal.length = 2 := by
  simp [stackMal, buildStack, specsMal, addLayer]

theorem run_mal_zero (u : ℕ → ℝ) :
    run stackMal 0 u = .error .zeroDivisionError := by
  unfold run
  rw [if_neg (by rw [stackMal_length]; norm_num),
    show ((0 : ℤ).toNat) = 0 from rfl]
  simp only [runLoop]
  simp

/-- C4 (counterexample): with a malformed geometry (the infinite layer not
last) and photon count 0, `run` passes its validation and fails only at the
post-loop normalisation with `ZeroDivisionError`, not with the configuration
`ValueError` the claim requires before tracing. -/
theorem run_no_validation :
    run stackMal 0 (fun _ => 0) = .error .zeroDivisionError ∧
    ∀ msg, run stackMal 0 (fun _ => 0) ≠ .error (.valueError msg) := by
  refine ⟨run_mal_zero _, fun msg => ?_⟩
  rw [run_mal_zero]
  simp

/-- C4 (amended): the only configuration check in `run` is the empty layer
list, rejected with a ValueError before any tracing; malformed geometry (an
infinite layer that is not last) passes validation untouched, and a zero
photon count produces a ZeroDivisionError at the normalisation step after the
(empty) tracing loop rather than a fail-fast configuration error. -/
theorem run_validation_amended :
    (∀ (n : ℤ) (u : ℕ → ℝ), run [] n u =
      .error (.valueError "No layers defined. Use add_layer() first.")) ∧
    (∀ u : ℕ → ℝ, run stackMal 0 u = .error .zeroDivisionError) := by
  constructor
  · intro n u
    unfold run
    rw [if_pos (show ([] : List Layer).length = 0 from rfl)]
  · exact run_mal_zero

/-! ## Penetration depths: the scan against the spec rule (C8) -/

theorem scanBelow_none : ∀ (k i : ℕ) (f : ℕ → ℝ) (thr : ℝ),
    scanBelow f thr i k = none → ∀ j, i ≤ j → j < i + k → ¬ f j < thr
  | 0, _, _, _, _, j, hij, hjk => by omega
  | k + 1, i, f, thr, h, j, hij, hjk => by
      unfold scanBelow at h
      split_ifs at h with hfi
      rcases eq_or_lt_of_le hij with rfl | hlt
      · exact hfi
      · exact scanBelow_none k (i + 1) f thr h j (by omega) (by omega)

theorem scanBelow_none_of : ∀ (k i : ℕ) (f : ℕ → ℝ) (thr : ℝ),
    (∀ j, i ≤ j → j < i + k → ¬ f j < thr) → scanBelow f thr i k = none
  | 0, _, _, _, _ => rfl
  | k + 1, i, f, thr, h => by
      unfold scanBelow
      rw [if_neg (h i le_rfl (by omega))]
      exact scanBelow_none_of k (i + 1) f thr
        (fun j h1 h2 => h j (by omega) (by omega))

theorem scanBelow_some : ∀ (k i : ℕ) (f : ℕ → ℝ) (thr : ℝ) (j : ℕ),
    scanBelow f thr i k = some j →
    i ≤ j ∧ j < i + k ∧ f j < thr ∧ ∀ m, i ≤ m → m < j → ¬ f m < thr
  | 0, _, _, _, _, h => Option.noConfusion h
  | k + 1, i, f, thr, j, h => by
      unfold scanBelow at h
      split_ifs at h with hfi
      · cases h
        exact ⟨le_rfl, by omega, hfi, fun m h1 h2 => by omega⟩
      · obtain ⟨h1, h2, h3, h4⟩ := scanBelow_some k (i + 1) f thr j h
        refine ⟨by omega, by omega, h3, fun m hm1 hm2 => ?_⟩
        rcases eq_or_lt_of_le hm1 with rfl | hm
        · exact hfi
        · exact h4 m (by omega) hm2

theorem scan_vs_find (f : ℕ → ℝ) (thr : ℝ) :
    (match scanBelow f thr 0 N_Z with
      | some i => zCenter i
      | none => Z_MAX) =
    (if h : ∃ i, i < N_Z ∧ f i < thr then zCenter (Nat.find h) else Z_MAX) := by
  cases hscan : scanBelow f thr 0 N_Z with
  | none =>
      rw [dif_neg]
      push_neg
      intro i hi
      exact not_lt.mp (scanBelow_none N_Z 0 f thr hscan i (Nat.zero_le i)
        (by omega))
  | some j =>
      obtain ⟨-, hjk, hbel, hmin⟩ := scanBelow_some N_Z 0 f thr j hscan
      have hex : ∃ i, i < N_Z ∧ f i < thr := ⟨j, by omega, hbel⟩
      rw [dif_pos hex]
      have hfind : Nat.find hex = j := by
        rw [Nat.find_eq_iff]
        exact ⟨⟨by omega, hbel⟩,
          fun m hm hcon => hmin m (Nat.zero_le m) hm hcon.2⟩
      rw [hfind]

theorem computePen_spec (f : ℕ → ℝ) (h0 : 0 < f 0) :
    computePen f =
      (penSpecDepth (Real.exp 1) f, penSpecDepth (Real.exp 1 ^ 2) f) := by
  unfold computePen penSpecDepth
  rw [if_pos h0, scan_vs_find f (f 0 / Real.exp 1),
    scan_vs_find f (f 0 / Real.exp 1 ^ 2)]

theorem run_ok_fields {L : List Layer} {n : ℤ} {u : ℕ → ℝ} {R : RunResult}
    (h : run L n u = .ok R) :
    R.penetrationDepth1e = (computePen R.fluenceZ).1 ∧
    R.penetrationDepth1e2 = (computePen R.fluenceZ).2 := by
  unfold run at h
  by_cases hL : L.length = 0
  · rw [if_pos hL] at h
    exact Except.noConfusion h
  · rw [if_neg hL] at h
    cases hrl : runLoop L u n.toNat
        { totR := 0, totT := 0, totA := 0, fz := fun _ => 0,
          frz := fun _ _ => 0, idx := 0 } with
    | error e =>
        rw [hrl] at h
        exact Except.noConfusion h
    | ok acc =>
        rw [hrl] at h
        dsimp only at h
        by_cases hn : n = 0
        · rw [if_pos hn] at h
          exact Except.noConfusion h
        · rw [if_neg hn] at h
          simp only [Except.ok.injEq] at h
          subst h
          exact ⟨rfl, rfl⟩

set_option maxRecDepth 4000 in
/-- C8 (amended): for every completed run whose surface-bin fluence is
positive, the reported 1/e penetration depth is the smallest scored bin
centre at which the depth-fluence profile first falls below
(surface fluence / e), and the maximum scored depth `Z_MAX` when the profile
never falls below within the scored range; analogously with divisor `e²`.
(When the surface bin is not positive the code reports 0 instead, see the
counterexample.) -/
theorem penetration_matches_spec {L : List Layer} {n : ℤ} {u : ℕ → ℝ}
    {R : RunResult} (h : run L n u = .ok R) (h0 : 0 < R.fluenceZ 0) :
    R.penetrationDepth1e = penSpecDepth (Real.exp 1) R.fluenceZ ∧
    R.penetrationDepth1e2 = penSpecDepth (Real.exp 1 ^ 2) R.fluenceZ := by
  obtain ⟨h1, h2⟩ := run_ok_fields h
  rw [h1, h2, computePen_spec R.fluenceZ h0]
  exact ⟨rfl, rfl⟩

/-! ## Concrete completed runs for the penetration-depth claim (C8) -/

/-- A single semi-infinite matched-index pure absorber (`mu_a = 1`,
`mu_s = 0`). -/
def layerAbs : Layer :=
  { name := "absorber", thickness := ⊤, n := 1, mu_a := 1, mu_s := 0, g := 0,
    z_top := (0 : EReal), z_bottom := ⊤ }

/-- The stack holding just `layerAbs`, as `add_layer` produces it. -/
def stackAbs : List Layer := [layerAbs]

/-- The `add_layer` argument producing `layerAbs`. -/
def specAbs : LayerSpec :=
  { name := "absorber", thickness := ⊤, n := 1, mu_a := 1, mu_s := 0, g := 0 }

theorem stackAbs_eval : buildStack [specAbs] = stackAbs := by
  rw [buildStack_single_inf specAbs rfl]
  rfl

/-- Draws: step draw `exp(-1)` (deposit at depth 1, i.e. bin 20) and a
roulette draw `1/2` that kills the spent packet. -/
def streamDeep : ℕ → ℝ :=
  fun i => if i = 0 then Real.exp (-1) else if i = 3 then 1 / 2 else 0

/-- Draws: step draw `exp(-(1/100))` (deposit at depth `1/100`, i.e. bin 0)
and a roulette draw `1/2` that kills the spent packet. -/
def streamShallow : ℕ → ℝ :=
  fun i => if i = 0 then Real.exp (-(1 / 100)) else if i = 3 then 1 / 2 else 0

/-- Terminal state of the `streamDeep` packet: everything absorbed at depth 1. -/
def absOutDeep : TraceState :=
  { x := 0, y := 0, z := 1, ux := 0, uy := 0, uz := -1, weight := 0,
    reflected := 0, transmitted := 0, absorbed := 1, deposits := [(1, 0, 1)],
    idx := 4 }

/-- Terminal state of the `streamShallow` packet: everything absorbed at depth
`1/100`. -/
def absOutShallow : TraceState :=
  { x := 0, y := 0, z := 1 / 100, ux := 0, uy := 0, uz := -1, weight := 0,
    reflected := 0, transmitted := 0, absorbed := 1,
    deposits := [(1 / 100, 0, 1)], idx := 4 }

theorem tracePhotonAux_abs_start (u : ℕ → ℝ) :
    tracePhotonAux stackAbs u 0 = loop stackAbs u MAX_STEPS witState := by
  have hlayer : getLayerAtZ stackAbs 0 = some layerAbs :=
    getLayerAtZ_single_inf layerAbs rfl rfl 0 le_rfl
  unfold tracePhotonAux
  rw [hlayer]
  dsimp only
  rw [show layerAbs.n = (1 : ℝ) from rfl,
    show N_AMBIENT = (1 : ℝ) by norm_num [N_AMBIENT], fresnel_self]
  norm_num [witState]

theorem loopStep_absDeep :
    loopStep stackAbs streamDeep witState = .ok (.done absOutDeep .credited) := by
  have hlayer : getLayerAtZ stackAbs 0 = some layerAbs :=
    getLayerAtZ_single_inf layerAbs rfl rfl 0 le_rfl
  have hu1 : streamDeep 1 = 0 := by norm_num [streamDeep]
  have hu2 : streamDeep 2 = 0 := by norm_num [streamDeep]
  have hstep : -Real.log (streamDeep 0) / layerAbs.mu_t = 1 := by
    rw [show streamDeep 0 = Real.exp (-1) by norm_num [streamDeep],
      Real.log_exp]
    norm_num [layerAbs, Layer.mu_t]
  unfold loopStep witState
  dsimp only
  rw [if_neg (by norm_num : ¬ (1 : ℝ) < 1e-10), hlayer]
  dsimp only
  rw [if_pos (by norm_num [layerAbs, Layer.mu_t] : layerAbs.mu_t > 0), hstep]
  unfold stepCore
  dsimp only
  rw [if_pos (show ((1 : ℝ) : EReal) < distToBoundary layerAbs 0 1 by
    rw [dist_inf_down layerAbs rfl 0 one_pos]; exact EReal.coe_lt_top _)]
  unfold interactionStep
  dsimp only
  rw [if_neg (by norm_num [layerAbs, Layer.mu_t] : ¬ layerAbs.mu_t = 0),
    hu1, hu2, show (layerAbs.g : ℝ) = 0 from rfl, scatter_down_flip]
  unfold rouletteCheck
  dsimp only
  rw [if_pos (by norm_num [layerAbs, Layer.mu_t, WEIGHT_THRESHOLD] :
        (1 : ℝ) - 1 * layerAbs.mu_a / layerAbs.mu_t < WEIGHT_THRESHOLD)]
  rw [if_neg (by norm_num [streamDeep, ROULETTE_CHANCE] :
        ¬ streamDeep (1 + 2) < ROULETTE_CHANCE)]
  unfold absOutDeep
  norm_num [layerAbs, Layer.mu_t, Real.sqrt_zero]

theorem loopStep_absShallow :
    loopStep stackAbs streamShallow witState =
      .ok (.done absOutShallow .credited) := by
  have hlayer : getLayerAtZ stackAbs 0 = some layerAbs :=
    getLayerAtZ_single_inf layerAbs rfl rfl 0 le_rfl
  have hu1 : streamShallow 1 = 0 := by norm_num [streamShallow]
  have hu2 : streamShallow 2 = 0 := by norm_num [streamShallow]
  have hstep : -Real.log (streamShallow 0) / layerAbs.mu_t = 1 / 100 := by
    rw [show streamShallow 0 = Real.exp (-(1 / 100)) by norm_num [streamShallow],
      Real.log_exp]
    norm_num [layerAbs, Layer.mu_t]
  unfold loopStep witState
  dsimp only
  rw [if_neg (by norm_num : ¬ (1 : ℝ) < 1e-10), hlayer]
  dsimp only
  rw [if_pos (by norm_num [layerAbs, Layer.mu_t] : layerAbs.mu_t > 0), hstep]
  unfold stepCore
  dsimp only
  rw [if_pos (show ((1 / 100 : ℝ) : EReal) < distToBoundary layerAbs 0 1 by
    rw [dist_inf_down layerAbs rfl 0 one_pos]; exact EReal.coe_lt_top _)]
  unfold interactionStep
  dsimp only
  rw [if_neg (by norm_num [layerAbs, Layer.mu_t] : ¬ layerAbs.mu_t = 0),
    hu1, hu2, show (layerAbs.g : ℝ) = 0 from rfl, scatter_down_flip]
  unfold rouletteCheck
  dsimp only
  rw [if_pos (by norm_num [layerAbs, Layer.mu_t, WEIGHT_THRESHOLD] :
        (1 : ℝ) - 1 * layerAbs.mu_a / layerAbs.mu_t < WEIGHT_THRESHOLD)]
  rw [if_neg (by norm_num [streamShallow, ROULETTE_CHANCE] :
        ¬ streamShallow (1 + 2) < ROULETTE_CHANCE)]
  unfold absOutShallow
  norm_num [layerAbs, Layer.mu_t, Real.sqrt_zero]

theorem tracePhotonAux_absDeep :
    tracePhotonAux stackAbs streamDeep 0 = .ok (absOutDeep, .credited) := by
  rw [tracePhotonAux_abs_start, show MAX_STEPS = 99999 + 1 by
    norm_num [MAX_STEPS], loop_eval_done loopStep_absDeep]

theorem tracePhotonAux_absShallow :
    tracePhotonAux stackAbs streamShallow 0 = .ok (absOutShallow, .credited) := by
  rw [tracePhotonAux_abs_start, show MAX_STEPS = 99999 + 1 by
    norm_num [MAX_STEPS], loop_eval_done loopStep_absShallow]

theorem DZ_eval : DZ = 1 / 20 := by
  norm_num [DZ, zBinEdge, Z_MAX, N_Z]

theorem DR_eval : DR = 1 / 10 := by
  norm_num [DR, rBinEdge, R_MAX, N_R]

theorem scoreAll_deep :
    (scoreAll (accInit.fz, accInit.frz) absOutDeep.deposits).1 =
      bumpAt (fun _ => 0) 20 1 := by
  unfold scoreAll absOutDeep accInit
  simp only [List.foldl_cons, List.foldl_nil]
  unfold scoreDeposit
  dsimp only
  rw [DZ_eval, DR_eval]
  rw [if_pos (by constructor <;> norm_num [pyTrunc, N_Z] :
    0 ≤ pyTrunc (1 / (1 / 20)) ∧ pyTrunc (1 / (1 / 20)) < ((N_Z : ℕ) : ℤ))]
  rw [if_pos (by constructor <;> norm_num [pyTrunc, N_R] :
    0 ≤ pyTrunc (0 / (1 / 10)) ∧ pyTrunc (0 / (1 / 10)) < ((N_R : ℕ) : ℤ))]
  dsimp only
  norm_num [pyTrunc]
  rfl

theorem scoreAll_shallow :
    (scoreAll (accInit.fz, accInit.frz) absOutShallow.deposits).1 =
      bumpAt (fun _ => 0) 0 1 := by
  unfold scoreAll absOutShallow accInit
  simp only [List.foldl_cons, List.foldl_nil]
  unfold scoreDeposit
  dsimp only
  rw [DZ_eval, DR_eval]
  rw [if_pos (by constructor <;> norm_num [pyTrunc, N_Z] :
    0 ≤ pyTrunc (1 / 100 / (1 / 20)) ∧ pyTrunc (1 / 100 / (1 / 20)) < ((N_Z : ℕ) : ℤ))]
  rw [if_pos (by constructor <;> norm_num [pyTrunc, N_R] :
    0 ≤ pyTrunc (0 / (1 / 10)) ∧ pyTrunc (0 / (1 / 10)) < ((N_R : ℕ) : ℤ))]
  dsimp only
  norm_num [pyTrunc]

theorem fznDeep_eval :
    normalizeFz (scoreAll (accInit.fz, accInit.frz) absOutDeep.deposits).1
      ((1 : ℤ) : ℝ) = normalizeFz (bumpAt (fun _ => 0) 20 1) 1 := by
  rw [scoreAll_deep]
  norm_num

theorem fznShallow_eval :
    normalizeFz (scoreAll (accInit.fz, accInit.frz) absOutShallow.deposits).1
      ((1 : ℤ) : ℝ) = normalizeFz (bumpAt (fun _ => 0) 0 1) 1 := by
  rw [scoreAll_shallow]
  norm_num

theorem fznDeep_zero : normalizeFz (bumpAt (fun _ => 0) 20 1) 1 0 = 0 := by
  unfold normalizeFz bumpAt
  norm_num [N_Z]

theorem fznDeep_nonneg :
    ∀ i, 0 ≤ normalizeFz (bumpAt (fun _ => 0) 20 1) 1 i := by
  intro i
  unfold normalizeFz bumpAt
  split_ifs <;> norm_num [DZ_eval]

theorem computePen_fznDeep :
    computePen (normalizeFz (bumpAt (fun _ => 0) 20 1) 1) = (0, 0) := by
  unfold computePen
  rw [if_neg (by rw [fznDeep_zero]; norm_num)]

theorem penSpec_fznDeep (dv : ℝ) :
    penSpecDepth dv (normalizeFz (bumpAt (fun _ => 0) 20 1) 1) = Z_MAX := by
  unfold penSpecDepth
  rw [dif_neg]
  push_neg
  intro i hi
  rw [fznDeep_zero, zero_div]
  exact fznDeep_nonneg i

theorem fznShallow_pos :
    0 < normalizeFz (bumpAt (fun _ => 0) 0 1) 1 0 := by
  unfold normalizeFz bumpAt
  norm_num [N_Z, DZ_eval]

theorem runDeep_eval :
    run stackAbs 1 streamDeep =
      .ok { reflectance := (accInit.totR + absOutDeep.reflected) / ((1 : ℤ) : ℝ),
            transmittance := (accInit.totT + absOutDeep.transmitted) / ((1 : ℤ) : ℝ),
            absorptionFraction := (accInit.totA + absOutDeep.absorbed) / ((1 : ℤ) : ℝ),
            fluenceZ := normalizeFz
              (scoreAll (accInit.fz, accInit.frz) absOutDeep.deposits).1
              ((1 : ℤ) : ℝ),
            fluenceRZ := normalizeFrz
              (scoreAll (accInit.fz, accInit.frz) absOutDeep.deposits).2
              ((1 : ℤ) : ℝ),
            penetrationDepth1e := (computePen (normalizeFz
              (scoreAll (accInit.fz, accInit.frz) absOutDeep.deposits).1
              ((1 : ℤ) : ℝ))).1,
            penetrationDepth1e2 := (computePen (normalizeFz
              (scoreAll (accInit.fz, accInit.frz) absOutDeep.deposits).1
              ((1 : ℤ) : ℝ))).2,
            effectiveAttenuation := muEffOf (normalizeFz
              (scoreAll (accInit.fz, accInit.frz) absOutDeep.deposits).1
              ((1 : ℤ) : ℝ)) } := by
  exact run_ok_eval stackAbs 1 streamDeep (by norm_num [stackAbs])
    (by norm_num)
    (by rw [show (1 : ℤ).toNat = 1 from rfl]
        exact runLoop_eval_single accInit tracePhotonAux_absDeep)

theorem runShallow_eval :
    run stackAbs 1 streamShallow =
      .ok { reflectance := (accInit.totR + absOutShallow.reflected) / ((1 : ℤ) : ℝ),
            transmittance := (accInit.totT + absOutShallow.transmitted) / ((1 : ℤ) : ℝ),
            absorptionFraction := (accInit.totA + absOutShallow.absorbed) / ((1 : ℤ) : ℝ),
            fluenceZ := normalizeFz
              (scoreAll (accInit.fz, accInit.frz) absOutShallow.deposits).1
              ((1 : ℤ) : ℝ),
            fluenceRZ := normalizeFrz
              (scoreAll (accInit.fz, accInit.frz) absOutShallow.deposits).2
              ((1 : ℤ) : ℝ),
            penetrationDepth1e := (computePen (normalizeFz
              (scoreAll (accInit.fz, accInit.frz) absOutShallow.deposits).1
              ((1 : ℤ) : ℝ))).1,
            penetrationDepth1e2 := (computePen (normalizeFz
              (scoreAll (accInit.fz, accInit.frz) absOutShallow.deposits).1
              ((1 : ℤ) : ℝ))).2,
            effectiveAttenuation := muEffOf (normalizeFz
              (scoreAll (accInit.fz, accInit.frz) absOutShallow.deposits).1
              ((1 : ℤ) : ℝ)) } := by
  exact run_ok_eval stackAbs 1 streamShallow (by norm_num [stackAbs])
    (by norm_num)
    (by rw [show (1 : ℤ).toNat = 1 from rfl]
        exact runLoop_eval_single accInit tracePhotonAux_absShallow)

/-- C8 (counterexample): the completed run `run stackAbs 1 streamDeep`
deposits all its energy in depth bin 20, so the surface (first) bin's fluence
is zero; the code then reports penetration depths 0, while the claim's rule
(the profile never falls below the threshold `surface/e = 0` within the
scored range, hence report the maximum scored depth) demands `Z_MAX = 10`. -/
theorem penetration_zero_surface_counterexample :
    ∃ R : RunResult, run stackAbs 1 streamDeep = .ok R ∧
      R.penetrationDepth1e = 0 ∧ R.penetrationDepth1e2 = 0 ∧
      penSpecDepth (Real.exp 1) R.fluenceZ = 10 ∧
      penSpecDepth (Real.exp 1 ^ 2) R.fluenceZ = 10 := by
  refine ⟨_, runDeep_eval, ?_, ?_, ?_, ?_⟩
  · show (computePen (normalizeFz
      (scoreAll (accInit.fz, accInit.frz) absOutDeep.deposits).1
      ((1 : ℤ) : ℝ))).1 = 0
    rw [fznDeep_eval, computePen_fznDeep]
  · show (computePen (normalizeFz
      (scoreAll (accInit.fz, accInit.frz) absOutDeep.deposits).1
      ((1 : ℤ) : ℝ))).2 = 0
    rw [fznDeep_eval, computePen_fznDeep]
  · show penSpecDepth (Real.exp 1) (normalizeFz
      (scoreAll (accInit.fz, accInit.frz) absOutDeep.deposits).1
      ((1 : ℤ) : ℝ)) = 10
    rw [fznDeep_eval, penSpec_fznDeep]
    norm_num [Z_MAX]
  · show penSpecDepth (Real.exp 1 ^ 2) (normalizeFz
      (scoreAll (accInit.fz, accInit.frz) absOutDeep.deposits).1
      ((1 : ℤ) : ℝ)) = 10
    rw [fznDeep_eval, penSpec_fznDeep]
    norm_num [Z_MAX]

theorem fluShallow_pos :
    0 < normalizeFz (scoreAll (accInit.fz, accInit.frz) absOutShallow.deposits).1
      ((1 : ℤ) : ℝ) 0 := by
  rw [fznShallow_eval]
  exact fznShallow_pos

/-- Witness for the amended C8: the shallow-absorption run completes with a
positive surface-bin fluence, so its reported depths follow the spec rule. -/
theorem penetration_matches_spec_witness :
    ∃ R : RunResult, run stackAbs 1 streamShallow = .ok R ∧
      0 < R.fluenceZ 0 ∧
      R.penetrationDepth1e = penSpecDepth (Real.exp 1) R.fluenceZ ∧
      R.penetrationDepth1e2 = penSpecDepth (Real.exp 1 ^ 2) R.fluenceZ :=
  ⟨_, runShallow_eval, fluShallow_pos,
    (penetration_matches_spec runShallow_eval fluShallow_pos).1,
    (penetration_matches_spec runShallow_eval fluShallow_pos).2⟩

/-- Witness for C10 at `g = 1/2`, `u = 1/2`. -/
theorem hgCosTheta_mem_witness :
    (0 : ℝ) < |(1 / 2 : ℝ)| ∧ |(1 / 2 : ℝ)| < 1 ∧
    -1 ≤ hgCosTheta (1 / 2) (1 / 2) ∧ hgCosTheta (1 / 2) (1 / 2) ≤ 1 := by
  have habs : |(1 / 2 : ℝ)| = 1 / 2 := abs_of_pos (by norm_num)
  have h := hgCosTheta_mem (1 / 2) (1 / 2) (by rw [habs]; norm_num)
    (by rw [habs]; norm_num) (by norm_num) (by norm_num)
  exact ⟨by rw [habs]; norm_num, by rw [habs]; norm_num, h.1, h.2.1⟩

end MC
